import Mathlib

/-!
Verification development for `converter.go` (slack-analytics): a shallow
embedding of the program's data model and pipeline, followed by theorems
checking the natural-language specification against it.

Modelling conventions:
* Go maps (`map[string]*User`, the nested stats maps) are embedded as
  association lists `List (String × α)` with first-match lookup (`lookupA`)
  and replace-first-or-append update (`updA`), which reproduces Go map
  lookup/assignment; in-place mutation through a `*Stats` pointer is embedded
  as a keyed re-fetch and update of the same association list.
* `map[string]bool` sets are embedded as duplicate-free `List String` with
  `insertSet`; only membership and cardinality are ever observed.
* Machine `int` counters are embedded as `Nat` (they are only ever
  incremented from zero; overflow is unreachable for the properties stated).
* `fmt.Println` output is embedded as an explicitly returned `List String`
  of printed lines.
* File-system paths are embedded as lists of path components of an already
  cleaned path, so `filepath.Base` is the last component, `filepath.Dir`
  drops the last component, and `filepath.Ext` reads the last component.
-/

/-- `Reaction` from converter.go:22-26: a reaction name, the list of user
identifiers who applied it, and a count field (unused by the program). -/
structure Reaction where
  name : String
  users : List String
  count : Nat
deriving DecidableEq, Repr

/-- `Message` from converter.go:15-20: author identifier, text, the reaction
list (field `GivenReactions`, JSON key `reactions`), and the timestamp string
(JSON key `ts`). -/
structure Message where
  user : String
  text : String
  givenReactions : List Reaction
  timestamp : String
deriving DecidableEq, Repr

/-- `Profile` from converter.go:36-38. -/
structure Profile where
  displayName : String
deriving DecidableEq, Repr

/-- `User` from converter.go:28-34: identifier, name, profile, restricted and
deleted flags.  The Go zero value of a missing string field is `""`. -/
structure User where
  id : String
  name : String
  profile : Profile
  isRestricted : Bool
  deleted : Bool
deriving DecidableEq, Repr

/-- `Stats` from converter.go:40-51, with the two `map[string]bool` sets
embedded as duplicate-free lists (`nil` maps are embedded as `[]`, which has
the same observable length and membership). -/
structure Stats where
  userID : String
  name : String
  displayName : String
  posts : Nat
  givenReactions : Nat
  givenReactionUser : List String
  receivedReactions : Nat
  receivedReactionUsers : List String
  isRestricted : Bool
  deleted : Bool
deriving DecidableEq, Repr

/-- First-match lookup in an association list: the embedding of Go map
indexing `m[k]` (with `none` for a missing key / `nil` pointer). -/
def lookupA {α : Type} : List (String × α) → String → Option α
  | [], _ => none
  | p :: t, k => if p.1 = k then some p.2 else lookupA t k

/-- Replace-first-or-append update: the embedding of Go map assignment
`m[k] = v`. -/
def updA {α : Type} : List (String × α) → String → α → List (String × α)
  | [], k, v => [(k, v)]
  | p :: t, k, v => if p.1 = k then (k, v) :: t else p :: updA t k v

/-- Embedding of `m[k] = true` on a Go `map[string]bool` used as a set. -/
def insertSet (s : List String) (k : String) : List String :=
  if s.contains k then s else s ++ [k]

abbrev UserMap := List (String × User)
abbrev StatsByUser := List (String × Stats)
abbrev StatsByDay := List (String × StatsByUser)
abbrev StatsByChannel := List (String × StatsByDay)

/-- Value of a digit string (most significant first). -/
def digitsVal (l : List Char) : Nat :=
  l.foldl (fun n c => n * 10 + (c.toNat - 48)) 0

/-- Model of `strconv.ParseFloat(ts, 64)` (converter.go:168) followed by the
`int64` truncation-toward-zero conversion in `time.Unix(int64(floatTs), 0)`
(converter.go:173), which is all the program observes of the parsed value.
The modelled grammar is an optional sign, decimal digits, and an optional
fractional part with at least one digit overall; the exponent, hexadecimal,
`Inf` and `NaN` forms that Go's `ParseFloat` also accepts are outside the
modelled timestamp grammar, as are values large enough for `float64`
rounding to matter. -/
def parseTsSeconds (s : String) : Option Int :=
  let cs := s.data
  let rest := match cs with
    | '-' :: t => t
    | '+' :: t => t
    | t => t
  let neg : Bool := match cs with
    | '-' :: _ => true
    | _ => false
  let intPart := rest.takeWhile (fun c => c.isDigit)
  let fracTail := rest.drop intPart.length
  let ok : Bool := match fracTail with
    | [] => !intPart.isEmpty
    | '.' :: frac => frac.all (fun c => c.isDigit) && !(intPart.isEmpty && frac.isEmpty)
    | _ => false
  if ok then
    let v : Int := Int.ofNat (digitsVal intPart)
    some (if neg then -v else v)
  else none

/-- Civil date (year, month, day) of a number of days since 1970-01-01,
proleptic Gregorian calendar. -/
def civilFromDays (z0 : Int) : Int × Int × Int :=
  let z := z0 + 719468
  let era := Int.fdiv z 146097
  let doe := z - era * 146097
  let yoe := Int.fdiv (doe - Int.fdiv doe 1460 + Int.fdiv doe 36524 - Int.fdiv doe 146096) 365
  let y := yoe + era * 400
  let doy := doe - (365 * yoe + Int.fdiv yoe 4 - Int.fdiv yoe 100)
  let mp := Int.fdiv (5 * doy + 2) 153
  let d := doy - Int.fdiv (153 * mp + 2) 5 + 1
  let m := mp + (if mp < 10 then 3 else -9)
  (y + (if m ≤ 2 then 1 else 0), m, d)

/-- Two-digit zero padding, as the `01`/`02` verbs of Go's time layout. -/
def pad2 (n : Int) : String :=
  if n < 10 then "0" ++ toString n else toString n

/-- Model of `time.Unix(sec, 0).Format("2006-01-02")` (converter.go:173).
The Go call formats in the host's local time zone; the model fixes the UTC
zone (the spec itself flags the zone dependence as an open ambiguity, and no
claim depends on the choice of zone). -/
def formatDay (sec : Int) : String :=
  let days := Int.fdiv sec 86400
  let c := civilFromDays days
  toString c.1 ++ "-" ++ pad2 c.2.1 ++ "-" ++ pad2 c.2.2

/-- Model of `strings.ReplaceAll(s, ",", " ")` (converter.go:189,209). -/
def replaceCommas (s : String) : String :=
  String.mk (s.data.map (fun c => if c = ',' then ' ' else c))

/-- The `&Stats{...}` literal built for a newly referenced user
(converter.go:186-192 and 206-212): identity fields copied from the user
record, counters at their zero values, sets empty (`nil` maps). -/
def freshStats (u : User) : Stats :=
  { userID := u.id
    name := u.name
    displayName := replaceCommas u.profile.displayName
    posts := 0
    givenReactions := 0
    givenReactionUser := []
    receivedReactions := 0
    receivedReactionUsers := []
    isRestricted := u.isRestricted
    deleted := u.deleted }

/-- The fetch-or-create idiom of converter.go:180-194 and 200-214: if `uid`
has no `Stats` record in the bucket, look it up in the user table; `none`
embeds the `u == nil` skip (`continue`), otherwise a fresh record is
inserted. -/
def getOrCreate (su : StatsByUser) (uid : String) (um : UserMap) : Option StatsByUser :=
  match lookupA su uid with
  | some _ => some su
  | none =>
    match lookupA um uid with
    | none => none
    | some u => some (updA su uid (freshStats u))

/-- `stats.Posts++` (converter.go:196), re-fetching the author's record by
key (the `none` branch is unreachable at call sites: the author's record was
just created). -/
def bumpPosts (su : StatsByUser) (uid : String) : StatsByUser :=
  match lookupA su uid with
  | some s => updA su uid { s with posts := s.posts + 1 }
  | none => su

/-- converter.go:216-220: `reactingStats.ReceivedReactions++` and
`reactingStats.ReceivedReactionUsers[message.User] = true`, as a keyed
re-fetch and update (the `none` branch is unreachable at call sites: the
reactor's record was just created). -/
def bumpReceived (su : StatsByUser) (reactor author : String) : StatsByUser :=
  match lookupA su reactor with
  | some rs => updA su reactor
      { rs with receivedReactions := rs.receivedReactions + 1
                receivedReactionUsers := insertSet rs.receivedReactionUsers author }
  | none => su

/-- converter.go:222-226: `stats.GivenReactions++` and
`stats.GivenReactionUser[reactingUser] = true` on the author's record, as a
keyed re-fetch and update (the `none` branch is unreachable at call sites:
the author's record exists before the reaction loop runs). -/
def bumpGiven (su : StatsByUser) (author reactor : String) : StatsByUser :=
  match lookupA su author with
  | some s => updA su author
      { s with givenReactions := s.givenReactions + 1
               givenReactionUser := insertSet s.givenReactionUser reactor }
  | none => su

/-- One reactor occurrence (converter.go:200-226): fetch-or-create the
reactor's record (skipping the occurrence entirely when the reactor is
unknown), increment the reactor's received count and record the author into
its received-from set, then increment the author's given count and record
the reactor into its given-to set.  The Go code mutates through pointers
`reactingStats` and `stats`; the embedding re-fetches each record by key,
which coincides with the pointer semantics (including the aliasing when the
reactor is the author). -/
def processReactor (su : StatsByUser) (author reactor : String) (um : UserMap) : StatsByUser :=
  match getOrCreate su reactor um with
  | none => su
  | some su1 => bumpGiven (bumpReceived su1 reactor author) author reactor

/-- The nested reaction loop of converter.go:198-228. -/
def processReactions (su : StatsByUser) (author : String) (reactions : List Reaction)
    (um : UserMap) : StatsByUser :=
  reactions.foldl
    (fun acc reac => reac.users.foldl (fun acc2 r => processReactor acc2 author r um) acc) su

/-- One message with an already parsed timestamp (converter.go:173-228):
locate/create the day bucket, fetch-or-create the author (an unknown author
skips the message, but the day bucket created at converter.go:174-178
remains), increment the post count, then fold the reactions. -/
def processMessage (ud : StatsByDay) (m : Message) (um : UserMap) (sec : Int) : StatsByDay :=
  match getOrCreate ((lookupA ud (formatDay sec)).getD []) m.user um with
  | none => updA ud (formatDay sec) ((lookupA ud (formatDay sec)).getD [])
  | some su1 =>
      updA ud (formatDay sec)
        (processReactions (bumpPosts su1 m.user) m.user m.givenReactions um)

/-- The printed line of converter.go:170, with the error text of Go's
`strconv.ParseFloat` for an invalid-syntax failure. -/
def parseErrLine (ts : String) : String :=
  "Error parsing timestamp: strconv.ParseFloat: parsing \"" ++ ts ++ "\": invalid syntax"

/-- The message loop of converter.go:158-229, returning the updated day map
together with the printed lines.  A `nil` user table (`users = none`) skips
every message; an empty timestamp skips the message; an unparseable
non-empty timestamp prints the error and returns, abandoning the remaining
messages of this call while keeping the mutations made so far. -/
def processMessages (ud : StatsByDay) (ms : List Message) (users : Option UserMap) :
    StatsByDay × List String :=
  match ms with
  | [] => (ud, [])
  | m :: rest =>
    match users with
    | none => processMessages ud rest users
    | some um =>
      if m.timestamp = "" then processMessages ud rest users
      else
        match parseTsSeconds m.timestamp with
        | none => (ud, [parseErrLine m.timestamp])
        | some sec => processMessages (processMessage ud m um sec) rest users

/-- `updateStats` (converter.go:150-230): locate/create the channel entry
(converter.go:152-156; the entry is created even when no message survives),
then run the message loop.  In Go the day map is mutated in place; the
embedding writes the final day map back under the channel key, which is
observationally the same since nothing reads the table concurrently. -/
def updateStats (t : StatsByChannel) (channelName : String) (messages : List Message)
    (users : Option UserMap) : StatsByChannel × List String :=
  (updA t channelName (processMessages ((lookupA t channelName).getD []) messages users).1,
   (processMessages ((lookupA t channelName).getD []) messages users).2)

/-- The reduced per-user record built at converter.go:124-129: identifier,
profile and the two flags are copied; the `Name` field is not, so it is the
Go zero value `""`. -/
def reducedUser (u : User) : User :=
  { id := u.id
    name := ""
    profile := u.profile
    isRestricted := u.isRestricted
    deleted := u.deleted }

/-- The `userMap` construction of converter.go:122-130, applied to the
decoded JSON array of users (file reading and JSON decoding are not
modelled; their failures return before any aggregation). -/
def loadUsers (users : List User) : UserMap :=
  users.foldl (fun userMap user => updA userMap user.id (reducedUser user)) []

/-- The fixed CSV header row of converter.go:245-257, verbatim. -/
def csvHeader : List String :=
  ["display_name", "name", "is_restricted", "deleted", "day", "posts",
   "received_reations", "received_reaction_users", "given_reactions",
   "given_reation_users", "channel_name"]

/-- `strconv.FormatBool` (converter.go:270-271). -/
def boolString (b : Bool) : String :=
  if b then "true" else "false"

/-- One data row of converter.go:267-279 (`strconv.Itoa` on the
never-negative counters is `toString`). -/
def rowOf (channelName day : String) (s : Stats) : List String :=
  [s.displayName, s.name, boolString s.isRestricted, boolString s.deleted, day,
   toString s.posts, toString s.givenReactions, toString s.givenReactionUser.length,
   toString s.receivedReactions, toString s.receivedReactionUsers.length, channelName]

/-- The full sequence of `writer.Write` calls of `exportCSV`
(converter.go:258-286): the header, then one row per (channel, day, user)
entry of the table, in the table's enumeration order (Go map iteration order
is unspecified; no claim depends on it). -/
def exportRows (t : StatsByChannel) : List (List String) :=
  csvHeader ::
    t.flatMap (fun cd => cd.2.flatMap (fun du => du.2.map (fun p => rowOf cd.1 du.1 p.2)))

/-- Write-failure environment for `exportCSV`: the first `fuel` calls to
`writer.Write` succeed and any further call fails.  Returns the rows
actually written (the possibly partial file content) and the first error. -/
def writeAll : Nat → List (List String) → List (List String) × Option String
  | _, [] => ([], none)
  | 0, _ :: _ => ([], some "write error")
  | Nat.succ fuel, r :: rest =>
    let w := writeAll fuel rest
    (r :: w.1, w.2)

/-- `exportCSV` (converter.go:232-288) under the write-failure environment:
`createOk` models whether `os.Create` succeeds; on creation failure the
error is returned and nothing is written, otherwise the write sequence runs
until the first failing `Write`.  Returns (file content, returned error). -/
def exportCSVModel (createOk : Bool) (fuel : Nat) (t : StatsByChannel) :
    List (List String) × Option String :=
  if createOk then writeAll fuel (exportRows t) else ([], some "create error")

/-- `strings.Replace(strings.Replace(basePath, ".", "", -1), "/", "", -1)`
(converter.go:105): removing every `.` and then every `/` is removing both
character kinds in one pass. -/
def stripDotSlash (s : String) : String :=
  String.mk (s.data.filter (fun c => (c != '.') && (c != '/')))

/-- The output file name of converter.go:105. -/
def outputName (basePath : String) : String :=
  "./" ++ stripDotSlash basePath ++ ".csv"

/-- The aggregation loop driven by the walk callback (converter.go:76-98),
over the already walked and decoded channel files: each element is (channel
name, decoded messages).  Returns the final table and the printed lines. -/
def runFiles (files : List (String × List Message)) (users : Option UserMap) :
    StatsByChannel × List String :=
  files.foldl
    (fun acc f =>
      let r := updateStats acc.1 f.1 f.2 users
      (r.1, acc.2 ++ r.2)) ([], [])

/-- `main` from the `loadUsers` call onward (converter.go:70-107), over the
walked and decoded channel files (file read and JSON decode errors, which
return before the export, are not modelled): on a user-load failure
(`users = none`) print the error and return without exporting; otherwise
aggregate every file, call `exportCSV` discarding its result exactly as
converter.go:106 does, and print the success line (`fmt.Println` with two
operands inserts a space, and the literal starts with one, hence the double
space).  Result: (printed lines, `none` if `exportCSV` was never called,
otherwise the (file content, export error) pair). -/
def mainRun (basePath : String) (users : Option UserMap)
    (files : List (String × List Message)) (createOk : Bool) (fuel : Nat) :
    List String × Option (List (List String) × Option String) :=
  match users with
  | none => (["Error loading users:"], none)
  | some um =>
    let r := runFiles files (some um)
    let e := exportCSVModel createOk fuel r.1
    (r.2 ++ [outputName basePath ++ "  file created successfully."], some e)

/-- A directory tree entry, for the walk model. -/
inductive FSEntry where
  | file (name : String)
  | dir (name : String) (children : List FSEntry)

mutual
/-- Paths visited by `filepath.Walk` below a prefix, in walk order
(directory before its children), paired with `info.IsDir()`. -/
def walkPaths (pref : List String) : FSEntry → List (List String × Bool)
  | FSEntry.file n => [(pref ++ [n], false)]
  | FSEntry.dir n cs => (pref ++ [n], true) :: walkPathsList (pref ++ [n]) cs

def walkPathsList (pref : List String) : List FSEntry → List (List String × Bool)
  | [] => []
  | e :: rest => walkPaths pref e ++ walkPathsList pref rest
end

/-- `filepath.Walk(basePath, ...)` visits `basePath` itself first, then the
tree below it. -/
def walkRoot (basePath : List String) (children : List FSEntry) :
    List (List String × Bool) :=
  (basePath, true) :: walkPathsList basePath children

/-- `filepath.Base` on a component list (`"."` for an empty path, as Go). -/
def baseOf (p : List String) : String :=
  p.getLast?.getD "."

/-- `filepath.Ext` of a path: the suffix of the last component starting at
its final dot, empty when the last component has no dot. -/
def extOf (name : String) : String :=
  let rev := name.data.reverse
  if rev.contains '.' then String.mk ('.' :: (rev.takeWhile (fun c => c != '.')).reverse)
  else ""

/-- The walk-callback decision of converter.go:81-94 for a non-directory
path: a `.json` file is skipped when its parent directory's base name equals
the base name of the root path, otherwise the parent's base name is its
channel name. -/
def channelOfPath (basePath p : List String) : Option String :=
  if extOf (p.getLast?.getD "") = ".json" then
    let dir := p.dropLast
    if baseOf dir = baseOf basePath then none
    else some (baseOf dir)
  else none

/-- The (path, channel name) pairs handed to the parser and `updateStats` by
the walk of converter.go:76-98. -/
def channelFiles (basePath : List String) (children : List FSEntry) :
    List (List String × String) :=
  (walkRoot basePath children).filterMap (fun e =>
    if e.2 then none
    else (channelOfPath basePath e.1).map (fun c => (e.1, c)))

/-! ## Derived observations and relations used by the theorems -/

/-- Value of `f` on an optional record, `0` when absent. -/
def optF {α : Type} (f : α → Nat) : Option α → Nat
  | some w => f w
  | none => 0

/-- Sum of `f` over the values of an association list. -/
def sumF {α : Type} (f : α → Nat) (m : List (String × α)) : Nat :=
  (m.map (fun p => f p.2)).sum

/-- The post count recorded for `uid` in one (channel, day) bucket. -/
def postsAt (su : StatsByUser) (uid : String) : Nat :=
  optF (fun s => s.posts) (lookupA su uid)

/-- Sum of `uid`'s post counts over the days of one channel. -/
def sumPostsDay (ud : StatsByDay) (uid : String) : Nat :=
  sumF (fun su => postsAt su uid) ud

/-- Sum of `uid`'s post counts over all (channel, day) buckets. -/
def sumPostsTable (t : StatsByChannel) (uid : String) : Nat :=
  sumF (fun ud => sumPostsDay ud uid) t

/-- The per-message predicate of the counting invariant: authored by `uid`
with a non-empty timestamp that parses. -/
def countsFor (uid : String) (m : Message) : Bool :=
  m.user == uid && m.timestamp != "" && (parseTsSeconds m.timestamp).isSome

/-- Counter comparison between two `Stats` records: the post, given-reaction
and received-reaction counts of the first are no larger. -/
def statsLE (s s' : Stats) : Prop :=
  s.posts ≤ s'.posts ∧ s.givenReactions ≤ s'.givenReactions
    ∧ s.receivedReactions ≤ s'.receivedReactions

/-- Every record of the first bucket persists, with counters never smaller,
in the second. -/
def suLE (su su' : StatsByUser) : Prop :=
  ∀ k s, lookupA su k = some s → ∃ s', lookupA su' k = some s' ∧ statsLE s s'

/-- `suLE`, lifted over the day level of one channel. -/
def udLE (ud ud' : StatsByDay) : Prop :=
  ∀ d su, lookupA ud d = some su → ∃ su', lookupA ud' d = some su' ∧ suLE su su'

/-- `suLE`, lifted over the whole channel → day → user table. -/
def tableLE (t t' : StatsByChannel) : Prop :=
  ∀ c ud, lookupA t c = some ud → ∃ ud', lookupA t' c = some ud' ∧ udLE ud ud'

/-- Key uniqueness at every level of the aggregation table: at most one
entry per channel, per day within a channel, and per user within a day. -/
def tableNodup (t : StatsByChannel) : Prop :=
  (t.map Prod.fst).Nodup
    ∧ ∀ cd ∈ t, (cd.2.map Prod.fst).Nodup ∧ ∀ du ∈ cd.2, (du.2.map Prod.fst).Nodup

/-- Key uniqueness within one channel's day map and its buckets. -/
def dayNodup (ud : StatsByDay) : Prop :=
  (ud.map Prod.fst).Nodup ∧ ∀ du ∈ ud, (du.2.map Prod.fst).Nodup

/-- The user identifiers referenced by a message list, as author or as
reactor. -/
def mentioned (ms : List Message) : List String :=
  ms.flatMap (fun m => m.user :: m.givenReactions.flatMap (fun r => r.users))

/-- The record stored for `uid` under day `d` of a day map (`none` when the
day bucket or the record is absent). -/
def recAtD (ud : StatsByDay) (d uid : String) : Option Stats :=
  lookupA ((lookupA ud d).getD []) uid

/-- The record stored for `uid` in the (channel `c`, day `d`) bucket of the
table. -/
def recAtT (t : StatsByChannel) (c d uid : String) : Option Stats :=
  recAtD ((lookupA t c).getD []) d uid

/-- `P` holds of every (user key, record) pair in every bucket of the
table. -/
def allTable (P : String → Stats → Prop) (t : StatsByChannel) : Prop :=
  ∀ cd ∈ t, ∀ du ∈ cd.2, ∀ p ∈ du.2, P p.1 p.2

/-- `P` holds of every (user key, record) pair of one bucket. -/
def allSU (P : String → Stats → Prop) (su : StatsByUser) : Prop :=
  ∀ p ∈ su, P p.1 p.2

/-- `P` holds of every (user key, record) pair under every day of one
channel. -/
def allDay (P : String → Stats → Prop) (ud : StatsByDay) : Prop :=
  ∀ du ∈ ud, ∀ p ∈ du.2, P p.1 p.2

/-- `P` is insensitive to the counter and set fields of a record — it
depends only on the key and the identity fields, which no aggregation step
ever changes. -/
def StatPreserved (P : String → Stats → Prop) : Prop :=
  ∀ k s s', P k s → s'.userID = s.userID → s'.name = s.name →
    s'.displayName = s.displayName → s'.isRestricted = s.isRestricted →
    s'.deleted = s.deleted → P k s'

/-! ## Concrete inputs used by witnesses and counterexamples -/

/-- A user directory entry as decoded from JSON (its `name` field comes from
the raw schema and is dropped by `loadUsers`). -/
def aliceRaw : User :=
  { id := "U1", name := "alice", profile := { displayName := "Alice" },
    isRestricted := false, deleted := false }

/-- A second known user. -/
def bobRaw : User :=
  { id := "U2", name := "bob", profile := { displayName := "Bob, the 2nd" },
    isRestricted := true, deleted := false }

/-- The user lookup table produced by `loadUsers` on the two users. -/
def demoUsers : UserMap := loadUsers [aliceRaw, bobRaw]

/-- A well-formed message with a self-reaction (the concrete scenario of the
spec). -/
def mGood : Message :=
  { user := "U1", text := "hi",
    givenReactions := [{ name := "thumbsup", users := ["U1"], count := 1 }],
    timestamp := "1700000000" }

/-- A message whose non-empty timestamp does not parse. -/
def mBad : Message :=
  { user := "U1", text := "x", givenReactions := [], timestamp := "not-a-number" }

/-- A parseable message authored by an identifier absent from the user
directory. -/
def mUnknown : Message :=
  { user := "U9", text := "yo", givenReactions := [], timestamp := "1700000000" }

/-! ## Association-list lemmas -/

theorem lookupA_updA_self {α : Type} (m : List (String × α)) (k : String) (v : α) :
    lookupA (updA m k v) k = some v := by
  induction m with
  | nil => simp [updA, lookupA]
  | cons p t ih =>
    by_cases h : p.1 = k
    · simp [updA, h, lookupA]
    · simp [updA, h, lookupA, ih]

theorem lookupA_updA_ne {α : Type} (m : List (String × α)) (k : String) (v : α)
    (k' : String) (h : k' ≠ k) : lookupA (updA m k v) k' = lookupA m k' := by
  have hk : k ≠ k' := Ne.symm h
  induction m with
  | nil => simp [updA, lookupA, hk]
  | cons p t ih =>
    by_cases hp : p.1 = k
    · subst hp
      simp [updA, lookupA, hk]
    · simp only [updA, if_neg hp, lookupA]
      by_cases hp' : p.1 = k'
      · simp [hp']
      · simp [hp', ih]

theorem mem_updA {α : Type} {m : List (String × α)} {k : String} {v : α}
    {p : String × α} (h : p ∈ updA m k v) : p = (k, v) ∨ p ∈ m := by
  induction m with
  | nil => simpa [updA] using h
  | cons q t ih =>
    by_cases hq : q.1 = k
    · simp only [updA, if_pos hq, List.mem_cons] at h
      rcases h with h | h
      · exact Or.inl h
      · exact Or.inr (List.mem_cons_of_mem _ h)
    · simp only [updA, if_neg hq, List.mem_cons] at h
      rcases h with h | h
      · exact Or.inr (by simp [h])
      · rcases ih h with h' | h'
        · exact Or.inl h'
        · exact Or.inr (List.mem_cons_of_mem _ h')

theorem keys_updA_sub {α : Type} {m : List (String × α)} {k : String} {v : α}
    {x : String} (h : x ∈ (updA m k v).map Prod.fst) :
    x ∈ m.map Prod.fst ∨ x = k := by
  rcases List.mem_map.mp h with ⟨p, hp, rfl⟩
  rcases mem_updA hp with h' | h'
  · exact Or.inr (by rw [h'])
  · exact Or.inl (List.mem_map_of_mem _ h')

theorem keysNodup_updA {α : Type} {m : List (String × α)} (k : String) (v : α)
    (h : (m.map Prod.fst).Nodup) : ((updA m k v).map Prod.fst).Nodup := by
  induction m with
  | nil => simp [updA]
  | cons p t ih =>
    simp only [List.map_cons, List.nodup_cons] at h
    by_cases hp : p.1 = k
    · subst hp
      simpa [updA, List.nodup_cons] using h
    · simp only [updA, if_neg hp, List.map_cons, List.nodup_cons]
      refine ⟨fun hx => ?_, ih h.2⟩
      rcases keys_updA_sub hx with h' | h'
      · exact h.1 h'
      · exact hp h'

theorem lookupA_mem {α : Type} {m : List (String × α)} {k : String} {v : α}
    (h : lookupA m k = some v) : (k, v) ∈ m := by
  induction m with
  | nil => simp [lookupA] at h
  | cons p t ih =>
    by_cases hp : p.1 = k
    · simp only [lookupA, if_pos hp] at h
      cases h
      simp [← hp]
    · simp only [lookupA, if_neg hp] at h
      exact List.mem_cons_of_mem _ (ih h)

theorem length_updA_of_none {α : Type} {m : List (String × α)} {k : String}
    (v : α) (h : lookupA m k = none) : (updA m k v).length = m.length + 1 := by
  induction m with
  | nil => simp [updA]
  | cons p t ih =>
    by_cases hp : p.1 = k
    · simp [lookupA, hp] at h
    · simp only [lookupA, if_neg hp] at h
      simp [updA, if_neg hp, ih h]

/-! ## Summation machinery for the counting invariant -/

theorem sumF_updA {α : Type} (f : α → Nat) (m : List (String × α)) (k : String) (v : α) :
    sumF f (updA m k v) + optF f (lookupA m k) = sumF f m + f v := by
  induction m with
  | nil => simp [updA, lookupA, sumF, optF]
  | cons p t ih =>
    by_cases hp : p.1 = k
    · simp only [updA, if_pos hp, lookupA, sumF, List.map_cons, List.sum_cons, optF]
      omega
    · simp only [updA, if_neg hp, lookupA, sumF, List.map_cons, List.sum_cons, optF] at *
      omega

theorem postsAt_nil (uid : String) : postsAt [] uid = 0 := rfl

theorem sumPostsDay_updA (ud : StatsByDay) (day : String) (X : StatsByUser) (uid : String) :
    sumPostsDay (updA ud day X) uid + postsAt ((lookupA ud day).getD []) uid
      = sumPostsDay ud uid + postsAt X uid := by
  have h := sumF_updA (fun su => postsAt su uid) ud day X
  have : optF (fun su => postsAt su uid) (lookupA ud day)
      = postsAt ((lookupA ud day).getD []) uid := by
    cases hl : lookupA ud day <;> simp [optF, hl, postsAt, lookupA]
  rw [this] at h
  exact h

theorem sumPostsTable_updA (t : StatsByChannel) (c : String) (X : StatsByDay) (uid : String) :
    sumPostsTable (updA t c X) uid + sumPostsDay ((lookupA t c).getD []) uid
      = sumPostsTable t uid + sumPostsDay X uid := by
  have h := sumF_updA (fun ud => sumPostsDay ud uid) t c X
  have : optF (fun ud => sumPostsDay ud uid) (lookupA t c)
      = sumPostsDay ((lookupA t c).getD []) uid := by
    cases hl : lookupA t c <;> simp [optF, hl, sumPostsDay, sumF]
  rw [this] at h
  exact h

/-! ## Case analysis of the fetch-or-create idiom -/

theorem getOrCreate_eq_some {su : StatsByUser} {x : String} {um : UserMap}
    {su' : StatsByUser} (h : getOrCreate su x um = some su') :
    (∃ s, lookupA su x = some s ∧ su' = su)
    ∨ (lookupA su x = none ∧ ∃ u, lookupA um x = some u
        ∧ su' = updA su x (freshStats u)) := by
  unfold getOrCreate at h
  split at h
  next s hs =>
    cases h
    exact Or.inl ⟨s, hs, rfl⟩
  next hs =>
    split at h
    next hu => cases h
    next u hu =>
      cases h
      exact Or.inr ⟨hs, u, hu, rfl⟩

theorem getOrCreate_eq_none {su : StatsByUser} {x : String} {um : UserMap}
    (h : getOrCreate su x um = none) :
    lookupA su x = none ∧ lookupA um x = none := by
  unfold getOrCreate at h
  split at h
  next s hs => cases h
  next hs =>
    split at h
    next hu => exact ⟨hs, hu⟩
    next u hu => cases h

theorem getOrCreate_lookup_isSome {su : StatsByUser} {x : String} {um : UserMap}
    {su' : StatsByUser} (h : getOrCreate su x um = some su') :
    (lookupA su' x).isSome := by
  rcases getOrCreate_eq_some h with ⟨s, hs, rfl⟩ | ⟨hs, u, hu, rfl⟩
  · simp [hs]
  · simp [lookupA_updA_self]

theorem lookupA_getOrCreate_ne {su : StatsByUser} {x : String} {um : UserMap}
    {su' : StatsByUser} (h : getOrCreate su x um = some su') (k : String)
    (hk : k ≠ x) : lookupA su' k = lookupA su k := by
  rcases getOrCreate_eq_some h with ⟨s, hs, rfl⟩ | ⟨hs, u, hu, rfl⟩
  · rfl
  · exact lookupA_updA_ne su x (freshStats u) k hk

/-! ## Post counts are only touched by the author increment -/

theorem postsAt_updA_presv {su : StatsByUser} {x : String} {s s' : Stats}
    (hs : lookupA su x = some s) (hp : s'.posts = s.posts) (k : String) :
    postsAt (updA su x s') k = postsAt su k := by
  by_cases hk : k = x
  · subst hk
    simp [postsAt, lookupA_updA_self, hs, optF, hp]
  · simp [postsAt, lookupA_updA_ne su x s' k hk]

theorem postsAt_getOrCreate {su : StatsByUser} {x : String} {um : UserMap}
    {su' : StatsByUser} (h : getOrCreate su x um = some su') (k : String) :
    postsAt su' k = postsAt su k := by
  rcases getOrCreate_eq_some h with ⟨s, hs, rfl⟩ | ⟨hs, u, hu, rfl⟩
  · rfl
  · by_cases hk : k = x
    · subst hk
      simp [postsAt, lookupA_updA_self, hs, optF, freshStats]
    · simp [postsAt, lookupA_updA_ne su x (freshStats u) k hk]

theorem postsAt_bumpReceived (su : StatsByUser) (r a k : String) :
    postsAt (bumpReceived su r a) k = postsAt su k := by
  unfold bumpReceived
  split
  next rs hrs =>
    refine postsAt_updA_presv hrs ?_ k
    rfl
  next => rfl

theorem postsAt_bumpGiven (su : StatsByUser) (a r k : String) :
    postsAt (bumpGiven su a r) k = postsAt su k := by
  unfold bumpGiven
  split
  next s hs =>
    refine postsAt_updA_presv hs ?_ k
    rfl
  next => rfl

theorem postsAt_processReactor (su : StatsByUser) (a r : String) (um : UserMap)
    (k : String) : postsAt (processReactor su a r um) k = postsAt su k := by
  unfold processReactor
  split
  next => rfl
  next su1 hg =>
    rw [postsAt_bumpGiven, postsAt_bumpReceived, postsAt_getOrCreate hg]

theorem postsAt_foldReactors (a : String) (um : UserMap) (k : String) :
    ∀ (users : List String) (su : StatsByUser),
      postsAt (users.foldl (fun acc2 r => processReactor acc2 a r um) su) k
        = postsAt su k
  | [], _ => rfl
  | r :: rest, su => by
    simp only [List.foldl_cons]
    rw [postsAt_foldReactors a um k rest, postsAt_processReactor]

theorem postsAt_foldReactions (a : String) (um : UserMap) (k : String) :
    ∀ (reactions : List Reaction) (su : StatsByUser),
      postsAt (reactions.foldl
        (fun acc reac => reac.users.foldl (fun acc2 r => processReactor acc2 a r um) acc)
        su) k = postsAt su k
  | [], _ => rfl
  | reac :: rest, su => by
    simp only [List.foldl_cons]
    rw [postsAt_foldReactions a um k rest, postsAt_foldReactors a um k reac.users]

theorem postsAt_processReactions (su : StatsByUser) (a : String)
    (reactions : List Reaction) (um : UserMap) (k : String) :
    postsAt (processReactions su a reactions um) k = postsAt su k :=
  postsAt_foldReactions a um k reactions su

/-! ## The per-message counting step -/

theorem sumPostsDay_processMessage {um : UserMap} {uid : String}
    (hk : (lookupA um uid).isSome) (ud : StatsByDay) (m : Message) (sec : Int) :
    sumPostsDay (processMessage ud m um sec) uid
      = sumPostsDay ud uid + (if m.user = uid then 1 else 0) := by
  unfold processMessage
  split
  next hg =>
    obtain ⟨hsu, hum⟩ := getOrCreate_eq_none hg
    have hne : m.user ≠ uid := by
      intro e
      rw [e] at hum
      rw [hum] at hk
      simp at hk
    have key := sumPostsDay_updA ud (formatDay sec) ((lookupA ud (formatDay sec)).getD []) uid
    rw [if_neg hne]
    omega
  next su1 hg =>
    obtain ⟨s1, hs1⟩ := Option.isSome_iff_exists.mp (getOrCreate_lookup_isSome hg)
    have key := sumPostsDay_updA ud (formatDay sec)
      (processReactions (bumpPosts su1 m.user) m.user m.givenReactions um) uid
    rw [postsAt_processReactions] at key
    have h4 := postsAt_getOrCreate hg uid
    by_cases hu : m.user = uid
    · subst hu
      have h3 : postsAt (bumpPosts su1 m.user) m.user = postsAt su1 m.user + 1 := by
        unfold bumpPosts
        rw [hs1]
        simp [postsAt, lookupA_updA_self, hs1, optF]
      rw [if_pos rfl]
      omega
    · have h3 : postsAt (bumpPosts su1 m.user) uid = postsAt su1 uid := by
        unfold bumpPosts
        rw [hs1]
        simp [postsAt, lookupA_updA_ne su1 m.user _ uid (Ne.symm hu)]
      rw [if_neg hu]
      omega

/-! ## The counting invariant over message lists, calls, and runs -/

theorem sumPostsDay_processMessages {um : UserMap} {uid : String}
    (hk : (lookupA um uid).isSome) :
    ∀ (ms : List Message) (ud : StatsByDay),
      (∀ m ∈ ms, m.timestamp ≠ "" → (parseTsSeconds m.timestamp).isSome) →
      sumPostsDay (processMessages ud ms (some um)).1 uid
        = sumPostsDay ud uid + ms.countP (countsFor uid)
  | [], ud, _ => by simp [processMessages]
  | m :: rest, ud, h => by
    have hrest : ∀ m' ∈ rest, m'.timestamp ≠ "" → (parseTsSeconds m'.timestamp).isSome :=
      fun m' hm' => h m' (List.mem_cons_of_mem _ hm')
    by_cases hts : m.timestamp = ""
    · have hstep : processMessages ud (m :: rest) (some um)
          = processMessages ud rest (some um) := by
        simp [processMessages, hts]
      have hc : countsFor uid m = false := by
        simp [countsFor, hts]
      rw [hstep, sumPostsDay_processMessages hk rest ud hrest, List.countP_cons, hc]
      simp
    · obtain ⟨sec, hsec⟩ :=
        Option.isSome_iff_exists.mp (h m (List.mem_cons_self _ _) hts)
      have hstep : processMessages ud (m :: rest) (some um)
          = processMessages (processMessage ud m um sec) rest (some um) := by
        simp [processMessages, hts, hsec]
      rw [hstep, sumPostsDay_processMessages hk rest _ hrest,
          sumPostsDay_processMessage hk ud m sec, List.countP_cons]
      have hc : countsFor uid m = (m.user == uid) := by
        simp [countsFor, hts, hsec]
      rw [hc]
      by_cases hu : m.user = uid
      · simp [hu]
        omega
      · simp [hu]

theorem sumPostsTable_updateStats {um : UserMap} {uid : String}
    (hk : (lookupA um uid).isSome) (t : StatsByChannel) (c : String)
    (ms : List Message)
    (hts : ∀ m ∈ ms, m.timestamp ≠ "" → (parseTsSeconds m.timestamp).isSome) :
    sumPostsTable (updateStats t c ms (some um)).1 uid
      = sumPostsTable t uid + ms.countP (countsFor uid) := by
  unfold updateStats
  dsimp only
  have key := sumPostsTable_updA t c
    (processMessages ((lookupA t c).getD []) ms (some um)).1 uid
  have h1 := sumPostsDay_processMessages hk ms ((lookupA t c).getD []) hts
  omega

theorem sumPostsTable_runFoldAux {um : UserMap} {uid : String}
    (hk : (lookupA um uid).isSome) :
    ∀ (files : List (String × List Message)) (acc : StatsByChannel × List String),
      (∀ f ∈ files, ∀ m ∈ f.2, m.timestamp ≠ "" → (parseTsSeconds m.timestamp).isSome) →
      sumPostsTable (files.foldl
        (fun acc f =>
          let r := updateStats acc.1 f.1 f.2 (some um)
          (r.1, acc.2 ++ r.2)) acc).1 uid
        = sumPostsTable acc.1 uid
            + (files.map (fun f => f.2.countP (countsFor uid))).sum
  | [], _, _ => by simp
  | f :: rest, acc, h => by
    simp only [List.foldl_cons, List.map_cons, List.sum_cons]
    rw [sumPostsTable_runFoldAux hk rest _
      (fun g hg => h g (List.mem_cons_of_mem _ hg))]
    dsimp only
    rw [sumPostsTable_updateStats hk acc.1 f.1 f.2
      (fun m hm => h f (List.mem_cons_self _ _) m hm)]
    omega

/-- C3 (amended): for every user `uid` present in the user lookup table, and
every input in which every non-empty timestamp parses (so no aggregation is
cut short), the sum over all (channel, day) buckets of `uid`'s post count in
the final table equals the number of input messages authored by `uid` with a
non-empty, parseable timestamp. -/
theorem sumPosts_eq_authored_count (um : UserMap)
    (files : List (String × List Message)) (uid : String)
    (hu : (lookupA um uid).isSome)
    (hts : ∀ f ∈ files, ∀ m ∈ f.2, m.timestamp ≠ "" → (parseTsSeconds m.timestamp).isSome) :
    sumPostsTable (runFiles files (some um)).1 uid
      = (files.map (fun f => f.2.countP (countsFor uid))).sum := by
  unfold runFiles
  rw [sumPostsTable_runFoldAux hu files ([], []) hts]
  simp [sumPostsTable, sumF]

/-- C3 witness: the counting invariant evaluated on a concrete two-channel
run for the known user `U1`. -/
theorem sumPosts_eq_authored_count_witness :
    sumPostsTable (runFiles [("general", [mGood]), ("random", [mGood])] (some demoUsers)).1 "U1"
      = ([("general", [mGood]), ("random", [mGood])].map
          (fun f => f.2.countP (countsFor "U1"))).sum :=
  sumPosts_eq_authored_count demoUsers [("general", [mGood]), ("random", [mGood])] "U1"
    (by decide) (by decide)

/-- C3 counterexample: as stated over every user and every input tree the
invariant fails on the code.  First input: a file whose first message has the
non-empty unparseable timestamp `"not-a-number"`; `updateStats` returns early
(converter.go:168-172), so the later well-formed message of `U1` is never
counted (sum 0, authored-and-parseable count 1).  Second input: a parseable
message authored by `U9`, absent from the user directory; it is silently
dropped (converter.go:182-184), so the sum is 0 while the claim's count is
1. -/
theorem sumPosts_ne_authored_count :
    (sumPostsTable (runFiles [("general", [mBad, mGood])] (some demoUsers)).1 "U1" = 0
      ∧ ([("general", [mBad, mGood])].map (fun f => f.2.countP (countsFor "U1"))).sum = 1)
    ∧ (sumPostsTable (runFiles [("general", [mUnknown])] (some demoUsers)).1 "U9" = 0
      ∧ ([("general", [mUnknown])].map (fun f => f.2.countP (countsFor "U9"))).sum = 1) := by
  refine ⟨⟨?_, ?_⟩, ⟨?_, ?_⟩⟩ <;> decide

/-- C1 counterexample: a run whose first channel file contains the message
with timestamp `"not-a-number"`.  The error is printed, but aggregation
continues with the next file (`U1`'s later post is counted: sum 1), the
success line is printed, and the output CSV is created and fully written
(header plus one data row, no write error) — against the claim's "halts
aggregation for the whole run, and no output CSV file is produced". -/
theorem malformedTs_counterexample :
    (mainRun "export" (some demoUsers) [("general", [mBad]), ("random", [mGood])] true 1000).1
      = [parseErrLine "not-a-number", "./export.csv  file created successfully."]
    ∧ (((mainRun "export" (some demoUsers) [("general", [mBad]), ("random", [mGood])] true 1000).2).map
        (fun e => (e.1.length, e.2))) = some (2, none)
    ∧ sumPostsTable (runFiles [("general", [mBad]), ("random", [mGood])] (some demoUsers)).1 "U1" = 1 := by
  refine ⟨?_, ?_, ?_⟩ <;> decide

/-- C1 (amended): a message whose non-empty timestamp fails to parse makes
`updateStats` print the error and abandon only the remaining messages of the
current file (the table keeps the mutations made before the failure); the
walk then continues, and whenever the user table loaded the run still calls
`exportCSV` and prints the success line, so an output CSV is still produced
(when its creation succeeds). -/
theorem malformedTs_aborts_file_only :
    (∀ (ud : StatsByDay) (pre : List Message) (bad : Message) (rest : List Message)
        (um : UserMap),
      bad.timestamp ≠ "" → parseTsSeconds bad.timestamp = none →
      (∀ m ∈ pre, m.timestamp = "" ∨ (parseTsSeconds m.timestamp).isSome) →
      processMessages ud (pre ++ bad :: rest) (some um)
        = ((processMessages ud pre (some um)).1, [parseErrLine bad.timestamp]))
    ∧ ∀ (bp : String) (um : UserMap) (files : List (String × List Message)) (fuel : Nat),
        ((mainRun bp (some um) files true fuel).2).isSome
        ∧ (mainRun bp (some um) files true fuel).1.getLast?
            = some (outputName bp ++ "  file created successfully.") := by
  constructor
  · intro ud pre
    induction pre generalizing ud with
    | nil =>
      intro bad rest um h1 h2 _
      simp [processMessages, h1, h2]
    | cons m t ih =>
      intro bad rest um h1 h2 hpre
      have hprev : ∀ m' ∈ t, m'.timestamp = "" ∨ (parseTsSeconds m'.timestamp).isSome :=
        fun m' hm' => hpre m' (List.mem_cons_of_mem _ hm')
      by_cases he : m.timestamp = ""
      · simpa [processMessages, he] using ih ud bad rest um h1 h2 hprev
      · rcases hpre m (List.mem_cons_self _ _) with he' | hs
        · exact absurd he' he
        · obtain ⟨sec, hsec⟩ := Option.isSome_iff_exists.mp hs
          simpa [processMessages, he, hsec]
            using ih (processMessage ud m um sec) bad rest um h1 h2 hprev
  · intro bp um files fuel
    refine ⟨by simp [mainRun], ?_⟩
    simp [mainRun, List.getLast?_concat]

/-- C1 witness: the amended behaviour at a concrete input — one good
message, then the malformed one, then a trailing message that is abandoned;
and a concrete run whose export is reached. -/
theorem malformedTs_aborts_file_only_witness :
    processMessages [] ([mGood] ++ mBad :: [mUnknown]) (some demoUsers)
      = ((processMessages [] [mGood] (some demoUsers)).1, [parseErrLine mBad.timestamp])
    ∧ ((mainRun "export" (some demoUsers) [("random", [mGood])] true 9).2).isSome :=
  ⟨malformedTs_aborts_file_only.1 [] [mGood] mBad [mUnknown] demoUsers
      (by decide) (by decide) (by decide),
    (malformedTs_aborts_file_only.2 "export" demoUsers [("random", [mGood])] 9).1⟩

/-- C2: `exportCSV` does fail (returns an error) when file creation fails or
a write fails partway — but `main` (converter.go:106-107) discards that
error and prints the success line, reporting success instead of the failure.
The second case also exhibits the partially written file: only the header
row was written before the failing write. -/
theorem exportError_reported_as_success :
    (exportCSVModel false 0 (runFiles [("random", [mGood])] (some demoUsers)).1).2
        = some "create error"
    ∧ (exportCSVModel true 1 (runFiles [("random", [mGood])] (some demoUsers)).1).1
        = [csvHeader]
    ∧ (exportCSVModel true 1 (runFiles [("random", [mGood])] (some demoUsers)).1).2
        = some "write error"
    ∧ (mainRun "export" (some demoUsers) [("random", [mGood])] false 0).1
        = ["./export.csv  file created successfully."]
    ∧ (mainRun "export" (some demoUsers) [("random", [mGood])] true 1).1
        = ["./export.csv  file created successfully."] := by
  refine ⟨?_, ?_, ?_, ?_, ?_⟩ <;> decide

/-! ## CSV shape -/

theorem mem_exportRows_tail {t : StatsByChannel} {row : List String}
    (h : row ∈ (exportRows t).tail) :
    ∃ cd ∈ t, ∃ du ∈ cd.2, ∃ p ∈ du.2, row = rowOf cd.1 du.1 p.2 := by
  simp only [exportRows, List.tail_cons] at h
  rcases List.mem_flatMap.mp h with ⟨cd, hcd, h2⟩
  rcases List.mem_flatMap.mp h2 with ⟨du, hdu, h3⟩
  rcases List.mem_map.mp h3 with ⟨p, hp, rfl⟩
  exact ⟨cd, hcd, du, hdu, p, hp, rfl⟩

/-- C4: the exported CSV always begins with the exact fixed header row
(field names verbatim, including the misspellings `received_reations` and
`given_reation_users`), and every data row's fields are, in order: display
name, name, restricted flag as "true"/"false", deleted flag likewise, day
string, post count, given-reaction count, cardinality of the given-to set,
received-reaction count, cardinality of the received-from set, channel
name — for the table entry the row was emitted from. -/
theorem csv_header_and_row_shape (t : StatsByChannel) :
    (exportRows t).head? = some
      ["display_name", "name", "is_restricted", "deleted", "day", "posts",
       "received_reations", "received_reaction_users", "given_reactions",
       "given_reation_users", "channel_name"]
    ∧ ∀ row ∈ (exportRows t).tail,
        ∃ cd ∈ t, ∃ du ∈ cd.2, ∃ p ∈ du.2,
          row = [p.2.displayName, p.2.name, boolString p.2.isRestricted,
                 boolString p.2.deleted, du.1, toString p.2.posts,
                 toString p.2.givenReactions, toString p.2.givenReactionUser.length,
                 toString p.2.receivedReactions, toString p.2.receivedReactionUsers.length,
                 cd.1] := by
  refine ⟨rfl, ?_⟩
  intro row hrow
  rcases mem_exportRows_tail hrow with ⟨cd, hcd, du, hdu, p, hp, rfl⟩
  exact ⟨cd, hcd, du, hdu, p, hp, rfl⟩

/-- C4 witness: the header and the single data row of a concrete run (the
display name, the zeroed name, the flags, day, the five counters, and the
channel of that run's only record). -/
theorem csv_header_and_row_shape_witness :
    (exportRows (runFiles [("random", [mGood])] (some demoUsers)).1).head? = some
      ["display_name", "name", "is_restricted", "deleted", "day", "posts",
       "received_reations", "received_reaction_users", "given_reactions",
       "given_reation_users", "channel_name"]
    ∧ ∃ cd ∈ (runFiles [("random", [mGood])] (some demoUsers)).1, ∃ du ∈ cd.2, ∃ p ∈ du.2,
        ["Alice", "", "false", "false", "2023-11-14", "1", "1", "1", "1", "1", "random"]
          = [p.2.displayName, p.2.name, boolString p.2.isRestricted,
             boolString p.2.deleted, du.1, toString p.2.posts,
             toString p.2.givenReactions, toString p.2.givenReactionUser.length,
             toString p.2.receivedReactions, toString p.2.receivedReactionUsers.length,
             cd.1] :=
  ⟨(csv_header_and_row_shape (runFiles [("random", [mGood])] (some demoUsers)).1).1,
    (csv_header_and_row_shape (runFiles [("random", [mGood])] (some demoUsers)).1).2
      ["Alice", "", "false", "false", "2023-11-14", "1", "1", "1", "1", "1", "random"]
      (by decide)⟩

/-! ## Reactor accounting -/

theorem mem_insertSet_self (l : List String) (k : String) : k ∈ insertSet l k := by
  unfold insertSet
  by_cases h : l.contains k
  · rw [if_pos h]
    exact List.mem_of_elem_eq_true h
  · rw [if_neg h]
    exact List.mem_append_right _ (List.mem_singleton.mpr rfl)

theorem bumpReceived_eq {su : StatsByUser} {r : String} {rs : Stats} (a : String)
    (h : lookupA su r = some rs) :
    bumpReceived su r a = updA su r
      { rs with receivedReactions := rs.receivedReactions + 1
                receivedReactionUsers := insertSet rs.receivedReactionUsers a } := by
  unfold bumpReceived
  rw [h]

theorem bumpGiven_eq {su : StatsByUser} {a : String} {s : Stats} (r : String)
    (h : lookupA su a = some s) :
    bumpGiven su a r = updA su a
      { s with givenReactions := s.givenReactions + 1
               givenReactionUser := insertSet s.givenReactionUser r } := by
  unfold bumpGiven
  rw [h]

theorem processReactor_eq {su : StatsByUser} {r : String} {um : UserMap}
    {su1 : StatsByUser} (a : String) (h : getOrCreate su r um = some su1) :
    processReactor su a r um = bumpGiven (bumpReceived su1 r a) a r := by
  unfold processReactor
  rw [h]

/-- C5: for a message author `a` holding a record in the bucket and any
occurrence of a known reactor `r` under one of its reactions, the step adds
one to the reactor's received-reaction count (starting from a fresh record
when the reactor was absent), records the author into the reactor's
received-from set, adds one to the author's given-reaction count, and
records the reactor into the author's given-to set; when `r = a` all four
effects land on that single user's record. -/
theorem reactor_accounting (su : StatsByUser) (a r : String) (um : UserMap)
    (ru : User) (sa : Stats) (hr : lookupA um r = some ru)
    (ha : lookupA su a = some sa) :
    ∃ sr' sa',
      lookupA (processReactor su a r um) r = some sr'
      ∧ lookupA (processReactor su a r um) a = some sa'
      ∧ sr'.receivedReactions
          = ((lookupA su r).getD (freshStats ru)).receivedReactions + 1
      ∧ a ∈ sr'.receivedReactionUsers
      ∧ sa'.givenReactions = sa.givenReactions + 1
      ∧ r ∈ sa'.givenReactionUser := by
  by_cases hra : r = a
  · subst hra
    have hg : getOrCreate su r um = some su := by
      simp [getOrCreate, ha]
    rw [processReactor_eq r hg, bumpReceived_eq r ha,
        bumpGiven_eq r (lookupA_updA_self su r _)]
    refine ⟨_, _, lookupA_updA_self _ _ _, lookupA_updA_self _ _ _, ?_, ?_, ?_, ?_⟩
    · rw [ha]
      rfl
    · exact mem_insertSet_self _ _
    · rfl
    · exact mem_insertSet_self _ _
  · cases hrs : lookupA su r with
    | some rs =>
      have hg : getOrCreate su r um = some su := by
        simp [getOrCreate, hrs]
      have la : lookupA (updA su r
          { rs with receivedReactions := rs.receivedReactions + 1
                    receivedReactionUsers := insertSet rs.receivedReactionUsers a }) a
          = some sa := by
        rw [lookupA_updA_ne su r _ a (Ne.symm hra)]
        exact ha
      rw [processReactor_eq a hg, bumpReceived_eq a hrs, bumpGiven_eq r la]
      refine ⟨{ rs with receivedReactions := rs.receivedReactions + 1
                        receivedReactionUsers := insertSet rs.receivedReactionUsers a },
              { sa with givenReactions := sa.givenReactions + 1
                        givenReactionUser := insertSet sa.givenReactionUser r },
              ?_, lookupA_updA_self _ _ _, ?_, ?_, ?_, ?_⟩
      · rw [lookupA_updA_ne _ a _ r hra]
        exact lookupA_updA_self _ _ _
      · rfl
      · exact mem_insertSet_self _ _
      · rfl
      · exact mem_insertSet_self _ _
    | none =>
      have hg : getOrCreate su r um = some (updA su r (freshStats ru)) := by
        simp [getOrCreate, hrs, hr]
      have la : lookupA (updA (updA su r (freshStats ru)) r
          { freshStats ru with
              receivedReactions := (freshStats ru).receivedReactions + 1
              receivedReactionUsers := insertSet (freshStats ru).receivedReactionUsers a }) a
          = some sa := by
        rw [lookupA_updA_ne _ r _ a (Ne.symm hra), lookupA_updA_ne su r _ a (Ne.symm hra)]
        exact ha
      rw [processReactor_eq a hg, bumpReceived_eq a (lookupA_updA_self su r (freshStats ru)),
          bumpGiven_eq r la]
      refine ⟨{ freshStats ru with
                  receivedReactions := (freshStats ru).receivedReactions + 1
                  receivedReactionUsers := insertSet (freshStats ru).receivedReactionUsers a },
              { sa with givenReactions := sa.givenReactions + 1
                        givenReactionUser := insertSet sa.givenReactionUser r },
              ?_, lookupA_updA_self _ _ _, ?_, ?_, ?_, ?_⟩
      · rw [lookupA_updA_ne _ a _ r hra]
        exact lookupA_updA_self _ _ _
      · show (freshStats ru).receivedReactions + 1
            = (Option.getD none (freshStats ru)).receivedReactions + 1
        rfl
      · show a ∈ insertSet (freshStats ru).receivedReactionUsers a
        exact mem_insertSet_self _ _
      · rfl
      · exact mem_insertSet_self _ _

/-- C5 witness: a concrete bucket holding the author `U1` and the known
reactor `U2` absent from the bucket. -/
theorem reactor_accounting_witness :
    ∃ sr' sa',
      lookupA (processReactor [("U1", freshStats (reducedUser aliceRaw))] "U1" "U2" demoUsers)
          "U2" = some sr'
      ∧ lookupA (processReactor [("U1", freshStats (reducedUser aliceRaw))] "U1" "U2" demoUsers)
          "U1" = some sa'
      ∧ sr'.receivedReactions
          = ((lookupA [("U1", freshStats (reducedUser aliceRaw))] "U2").getD
              (freshStats (reducedUser bobRaw))).receivedReactions + 1
      ∧ "U1" ∈ sr'.receivedReactionUsers
      ∧ sa'.givenReactions = (freshStats (reducedUser aliceRaw)).givenReactions + 1
      ∧ "U2" ∈ sa'.givenReactionUser :=
  reactor_accounting [("U1", freshStats (reducedUser aliceRaw))] "U1" "U2" demoUsers
    (reducedUser bobRaw) (freshStats (reducedUser aliceRaw)) (by decide) (by decide)

/-! ## The walker's channel-file selection -/

theorem mem_channelFiles {bp : List String} {cs : List FSEntry} {p : List String}
    {c : String} :
    (p, c) ∈ channelFiles bp cs
      ↔ ((p, false) ∈ walkRoot bp cs ∧ channelOfPath bp p = some c) := by
  unfold channelFiles
  rw [List.mem_filterMap]
  constructor
  · rintro ⟨⟨q, b⟩, he, hmap⟩
    cases b with
    | true => simp at hmap
    | false =>
      simp only [Bool.false_eq_true, if_false] at hmap
      rcases Option.map_eq_some'.mp hmap with ⟨c0, hc0, heq⟩
      injection heq with h1 h2
      subst h1
      subst h2
      exact ⟨he, hc0⟩
  · rintro ⟨he, hc⟩
    exact ⟨(p, false), he, by simp [hc]⟩

theorem channelOfPath_eq_some {bp p : List String} {c : String} :
    channelOfPath bp p = some c
      ↔ (extOf (p.getLast?.getD "") = ".json" ∧ baseOf p.dropLast ≠ baseOf bp
          ∧ c = baseOf p.dropLast) := by
  unfold channelOfPath
  by_cases h1 : extOf (p.getLast?.getD "") = ".json"
  · rw [if_pos h1]
    by_cases h2 : baseOf p.dropLast = baseOf bp
    · rw [if_pos h2]
      simp [h1, h2]
    · rw [if_neg h2]
      simp [h1, h2, eq_comm]
  · rw [if_neg h1]
    simp [h1]

theorem mem_walkPathsList_files {bp : List String} {names : List String}
    {p : List String} {b : Bool}
    (h : (p, b) ∈ walkPathsList bp (names.map FSEntry.file)) :
    b = false ∧ ∃ n ∈ names, p = bp ++ [n] := by
  induction names with
  | nil => simp [walkPathsList] at h
  | cons n rest ih =>
    simp only [List.map_cons, walkPathsList, walkPaths, List.mem_append] at h
    rcases h with h | h
    · rcases List.mem_singleton.mp h with heq
      injection heq with h1 h2
      exact ⟨h2, n, List.mem_cons_self _ _, h1⟩
    · rcases ih h with ⟨hb, n', hn', hp⟩
      exact ⟨hb, n', List.mem_cons_of_mem _ hn', hp⟩

/-- C7: a regular file visited by the walk is selected as a channel file
exactly when it has the `.json` extension and its immediate parent
directory's base name differs from the base name of the root path, and then
its channel name is the parent's base name; consequently a tree whose only
JSON files sit directly at the root yields zero channel files. -/
theorem walker_channel_rule :
    (∀ (bp : List String) (cs : List FSEntry) (p : List String) (c : String),
      (p, c) ∈ channelFiles bp cs
        ↔ ((p, false) ∈ walkRoot bp cs ∧ extOf (p.getLast?.getD "") = ".json"
            ∧ baseOf p.dropLast ≠ baseOf bp ∧ c = baseOf p.dropLast))
    ∧ ∀ (bp : List String) (names : List String),
        channelFiles bp (names.map FSEntry.file) = [] := by
  constructor
  · intro bp cs p c
    rw [mem_channelFiles, channelOfPath_eq_some]
  · intro bp names
    rw [List.eq_nil_iff_forall_not_mem]
    rintro ⟨p, c⟩ hmem
    rcases mem_channelFiles.mp hmem with ⟨hw, hc⟩
    rcases channelOfPath_eq_some.mp hc with ⟨_, hne, _⟩
    rcases List.mem_cons.mp hw with heq | hw'
    · injection heq with _ h2
      cases h2
    · rcases mem_walkPathsList_files hw' with ⟨_, n, _, rfl⟩
      exact hne (by rw [List.dropLast_concat])

/-- C7 witness: in the tree `export/{users.json, general/log.json}` the
walker selects exactly the file inside the channel folder, with channel name
`general`; a root with only top-level JSON files selects nothing. -/
theorem walker_channel_rule_witness :
    (["export", "general", "log.json"], "general")
        ∈ channelFiles ["export"]
            [FSEntry.file "users.json", FSEntry.dir "general" [FSEntry.file "log.json"]]
    ∧ channelFiles ["export"] (["users.json", "channels.json"].map FSEntry.file) = [] :=
  ⟨(walker_channel_rule.1 ["export"]
      [FSEntry.file "users.json", FSEntry.dir "general" [FSEntry.file "log.json"]]
      ["export", "general", "log.json"] "general").mpr
        ⟨by decide, by decide, by decide, by decide⟩,
    walker_channel_rule.2 ["export"] ["users.json", "channels.json"]⟩

/-! ## The user directory loader -/

theorem loadUsers_go_lookup_ne :
    ∀ (ul : List User) (m : UserMap) (k : String),
      (∀ u ∈ ul, u.id ≠ k) →
      lookupA (ul.foldl (fun userMap user => updA userMap user.id (reducedUser user)) m) k
        = lookupA m k
  | [], _, _, _ => rfl
  | u :: rest, m, k, h => by
    simp only [List.foldl_cons]
    rw [loadUsers_go_lookup_ne rest _ k (fun v hv => h v (List.mem_cons_of_mem _ hv))]
    exact lookupA_updA_ne m u.id _ k (Ne.symm (h u (List.mem_cons_self _ _)))

theorem loadUsers_go_length :
    ∀ (ul : List User) (m : UserMap),
      (ul.map (fun u => u.id)).Nodup →
      (∀ u ∈ ul, lookupA m u.id = none) →
      (ul.foldl (fun userMap user => updA userMap user.id (reducedUser user)) m).length
        = m.length + ul.length
  | [], _, _, _ => rfl
  | u :: rest, m, hnd, habs => by
    simp only [List.map_cons, List.nodup_cons] at hnd
    simp only [List.foldl_cons, List.length_cons]
    have h1 : (updA m u.id (reducedUser u)).length = m.length + 1 :=
      length_updA_of_none _ (habs u (List.mem_cons_self _ _))
    have habs' : ∀ v ∈ rest, lookupA (updA m u.id (reducedUser u)) v.id = none := by
      intro v hv
      rw [lookupA_updA_ne m u.id _ v.id
        (fun e => hnd.1 (by rw [← e]; exact List.mem_map_of_mem _ hv))]
      exact habs v (List.mem_cons_of_mem _ hv)
    rw [loadUsers_go_length rest _ hnd.2 habs', h1]
    omega

theorem loadUsers_go_lookup :
    ∀ (ul : List User) (m : UserMap),
      (ul.map (fun u => u.id)).Nodup →
      ∀ u ∈ ul,
        lookupA (ul.foldl (fun userMap user => updA userMap user.id (reducedUser user)) m)
            u.id
          = some (reducedUser u)
  | [], _, _, _, hu => by cases hu
  | v :: rest, m, hnd, u, hu => by
    simp only [List.map_cons, List.nodup_cons] at hnd
    rcases List.mem_cons.mp hu with rfl | hu'
    · simp only [List.foldl_cons]
      have hne : ∀ w ∈ rest, w.id ≠ u.id :=
        fun w hw e => hnd.1 (by rw [← e]; exact List.mem_map_of_mem _ hw)
      rw [loadUsers_go_lookup_ne rest _ u.id hne]
      exact lookupA_updA_self m u.id (reducedUser u)
    · simp only [List.foldl_cons]
      exact loadUsers_go_lookup rest _ hnd.2 u hu'

/-- C8: for a decoded user directory of `N` well-formed user objects with
unique identifiers, `loadUsers` returns a lookup table with exactly `N`
entries, and looking up any input user's identifier yields its reduced
record (identifier, display name, restricted flag, deleted flag; no raw
name). -/
theorem loadUsers_spec (ul : List User) (h : (ul.map (fun u => u.id)).Nodup) :
    (loadUsers ul).length = ul.length
    ∧ ∀ u ∈ ul, lookupA (loadUsers ul) u.id = some (reducedUser u) := by
  constructor
  · have := loadUsers_go_length ul [] h (fun u _ => rfl)
    simpa [loadUsers] using this
  · intro u hu
    exact loadUsers_go_lookup ul [] h u hu

/-- C8 witness: the two-user directory. -/
theorem loadUsers_spec_witness :
    (loadUsers [aliceRaw, bobRaw]).length = [aliceRaw, bobRaw].length
    ∧ lookupA (loadUsers [aliceRaw, bobRaw]) aliceRaw.id = some (reducedUser aliceRaw) :=
  ⟨(loadUsers_spec [aliceRaw, bobRaw] (by decide)).1,
    (loadUsers_spec [aliceRaw, bobRaw] (by decide)).2 aliceRaw (by decide)⟩

/-! ## Predicate preservation through the aggregation pipeline -/

theorem allSU_updA {P : String → Stats → Prop} {su : StatsByUser} {k : String}
    {v : Stats} (hall : allSU P su) (hv : P k v) : allSU P (updA su k v) := by
  intro p hp
  rcases mem_updA hp with rfl | hp'
  · exact hv
  · exact hall p hp'

theorem allSU_getOrCreate {P : String → Stats → Prop} {um : UserMap}
    (hfresh : ∀ k u, lookupA um k = some u → P k (freshStats u))
    {su su' : StatsByUser} {uid : String} (hall : allSU P su)
    (h : getOrCreate su uid um = some su') : allSU P su' := by
  rcases getOrCreate_eq_some h with ⟨s, _, rfl⟩ | ⟨_, u, hu, rfl⟩
  · exact hall
  · exact allSU_updA hall (hfresh uid u hu)

theorem allSU_bumpPosts {P : String → Stats → Prop} (hb : StatPreserved P)
    {su : StatsByUser} (uid : String) (hall : allSU P su) :
    allSU P (bumpPosts su uid) := by
  unfold bumpPosts
  split
  next s hs =>
    exact allSU_updA hall (hb uid s _ (hall (uid, s) (lookupA_mem hs)) rfl rfl rfl rfl rfl)
  next => exact hall

theorem allSU_bumpReceived {P : String → Stats → Prop} (hb : StatPreserved P)
    {su : StatsByUser} (r a : String) (hall : allSU P su) :
    allSU P (bumpReceived su r a) := by
  unfold bumpReceived
  split
  next rs hrs =>
    exact allSU_updA hall (hb r rs _ (hall (r, rs) (lookupA_mem hrs)) rfl rfl rfl rfl rfl)
  next => exact hall

theorem allSU_bumpGiven {P : String → Stats → Prop} (hb : StatPreserved P)
    {su : StatsByUser} (a r : String) (hall : allSU P su) :
    allSU P (bumpGiven su a r) := by
  unfold bumpGiven
  split
  next s hs =>
    exact allSU_updA hall (hb a s _ (hall (a, s) (lookupA_mem hs)) rfl rfl rfl rfl rfl)
  next => exact hall

theorem allSU_processReactor {P : String → Stats → Prop} {um : UserMap}
    (hfresh : ∀ k u, lookupA um k = some u → P k (freshStats u))
    (hb : StatPreserved P) {su : StatsByUser} (a r : String) (hall : allSU P su) :
    allSU P (processReactor su a r um) := by
  unfold processReactor
  split
  next => exact hall
  next su1 hg =>
    exact allSU_bumpGiven hb a r (allSU_bumpReceived hb r a (allSU_getOrCreate hfresh hall hg))

theorem allSU_foldReactors {P : String → Stats → Prop} {um : UserMap}
    (hfresh : ∀ k u, lookupA um k = some u → P k (freshStats u))
    (hb : StatPreserved P) (a : String) :
    ∀ (users : List String) (su : StatsByUser), allSU P su →
      allSU P (users.foldl (fun acc2 r => processReactor acc2 a r um) su)
  | [], _, hall => hall
  | r :: rest, su, hall => by
    simp only [List.foldl_cons]
    exact allSU_foldReactors hfresh hb a rest _ (allSU_processReactor hfresh hb a r hall)

theorem allSU_processReactions {P : String → Stats → Prop} {um : UserMap}
    (hfresh : ∀ k u, lookupA um k = some u → P k (freshStats u))
    (hb : StatPreserved P) (a : String) :
    ∀ (reactions : List Reaction) (su : StatsByUser), allSU P su →
      allSU P (processReactions su a reactions um)
  | [], _, hall => hall
  | reac :: rest, su, hall => by
    show allSU P ((reac :: rest).foldl
      (fun acc r0 => r0.users.foldl (fun acc2 r => processReactor acc2 a r um) acc) su)
    simp only [List.foldl_cons]
    exact allSU_processReactions hfresh hb a rest _
      (allSU_foldReactors hfresh hb a reac.users su hall)

theorem allDay_processMessage {P : String → Stats → Prop} {um : UserMap}
    (hfresh : ∀ k u, lookupA um k = some u → P k (freshStats u))
    (hb : StatPreserved P) {ud : StatsByDay} (hall : allDay P ud)
    (m : Message) (sec : Int) : allDay P (processMessage ud m um sec) := by
  have hsu : allSU P ((lookupA ud (formatDay sec)).getD []) := by
    cases hl : lookupA ud (formatDay sec) with
    | none => intro p hp; simp at hp
    | some su => exact fun p hp => hall (formatDay sec, su) (lookupA_mem hl) p hp
  unfold processMessage
  split
  next hg =>
    intro du hdu p hp
    rcases mem_updA hdu with rfl | hdu'
    · exact hsu p hp
    · exact hall du hdu' p hp
  next su1 hg =>
    have h3 : allSU P (processReactions (bumpPosts su1 m.user) m.user m.givenReactions um) :=
      allSU_processReactions hfresh hb m.user m.givenReactions _
        (allSU_bumpPosts hb m.user (allSU_getOrCreate hfresh hsu hg))
    intro du hdu p hp
    rcases mem_updA hdu with rfl | hdu'
    · exact h3 p hp
    · exact hall du hdu' p hp

theorem allDay_processMessages {P : String → Stats → Prop} {um : UserMap}
    (hfresh : ∀ k u, lookupA um k = some u → P k (freshStats u))
    (hb : StatPreserved P) :
    ∀ (ms : List Message) (ud : StatsByDay), allDay P ud →
      allDay P (processMessages ud ms (some um)).1
  | [], _, hall => hall
  | m :: rest, ud, hall => by
    by_cases hts : m.timestamp = ""
    · have hstep : processMessages ud (m :: rest) (some um)
          = processMessages ud rest (some um) := by
        simp [processMessages, hts]
      rw [hstep]
      exact allDay_processMessages hfresh hb rest ud hall
    · cases hp : parseTsSeconds m.timestamp with
      | none =>
        have hstep : processMessages ud (m :: rest) (some um)
            = (ud, [parseErrLine m.timestamp]) := by
          simp [processMessages, hts, hp]
        rw [hstep]
        exact hall
      | some sec =>
        have hstep : processMessages ud (m :: rest) (some um)
            = processMessages (processMessage ud m um sec) rest (some um) := by
          simp [processMessages, hts, hp]
        rw [hstep]
        exact allDay_processMessages hfresh hb rest _
          (allDay_processMessage hfresh hb hall m sec)

theorem allTable_updateStats {P : String → Stats → Prop} {um : UserMap}
    (hfresh : ∀ k u, lookupA um k = some u → P k (freshStats u))
    (hb : StatPreserved P) {t : StatsByChannel} (hall : allTable P t)
    (c : String) (ms : List Message) :
    allTable P (updateStats t c ms (some um)).1 := by
  unfold updateStats
  dsimp only
  have hud : allDay P ((lookupA t c).getD []) := by
    cases hl : lookupA t c with
    | none => intro du hdu; simp at hdu
    | some ud => exact fun du hdu p hp => hall (c, ud) (lookupA_mem hl) du hdu p hp
  have h1 := allDay_processMessages hfresh hb ms _ hud
  intro cd hcd du hdu p hp
  rcases mem_updA hcd with rfl | hcd'
  · exact h1 du hdu p hp
  · exact hall cd hcd' du hdu p hp

theorem allTable_runFoldAux {P : String → Stats → Prop} {um : UserMap}
    (hfresh : ∀ k u, lookupA um k = some u → P k (freshStats u))
    (hb : StatPreserved P) :
    ∀ (files : List (String × List Message)) (acc : StatsByChannel × List String),
      allTable P acc.1 →
      allTable P (files.foldl
        (fun acc f =>
          let r := updateStats acc.1 f.1 f.2 (some um)
          (r.1, acc.2 ++ r.2)) acc).1
  | [], _, hall => hall
  | f :: rest, acc, hall => by
    simp only [List.foldl_cons]
    exact allTable_runFoldAux hfresh hb rest _
      (by dsimp only; exact allTable_updateStats hfresh hb hall f.1 f.2)

theorem allTable_runFiles {P : String → Stats → Prop} {um : UserMap}
    (hfresh : ∀ k u, lookupA um k = some u → P k (freshStats u))
    (hb : StatPreserved P) (files : List (String × List Message)) :
    allTable P (runFiles files (some um)).1 :=
  allTable_runFoldAux hfresh hb files ([], []) (by intro cd hcd; simp at hcd)

theorem loadUsers_go_mem :
    ∀ (ul : List User) (m : UserMap) (p : String × User),
      p ∈ ul.foldl (fun userMap user => updA userMap user.id (reducedUser user)) m →
      p ∈ m ∨ ∃ u ∈ ul, p = (u.id, reducedUser u)
  | [], _, _, h => Or.inl h
  | u :: rest, m, p, h => by
    simp only [List.foldl_cons] at h
    rcases loadUsers_go_mem rest _ p h with h' | h'
    · rcases mem_updA h' with rfl | h''
      · exact Or.inr ⟨u, List.mem_cons_self _ _, rfl⟩
      · exact Or.inl h''
    · rcases h' with ⟨v, hv, rfl⟩
      exact Or.inr ⟨v, List.mem_cons_of_mem _ hv, rfl⟩

/-- C6: the user lookup table retains only the reduced field set (the raw
`name` is dropped, left at its zero value `""`), every `Stats` record of any
table aggregated with that lookup table carries the empty name, and the
`name` column (index 1) of every exported data row is the empty string. -/
theorem name_field_never_retained (ul : List User)
    (files : List (String × List Message)) :
    (∀ p ∈ loadUsers ul, ∃ u ∈ ul, p = (u.id, reducedUser u))
    ∧ allTable (fun _ s => s.name = "") (runFiles files (some (loadUsers ul))).1
    ∧ ∀ row ∈ (exportRows (runFiles files (some (loadUsers ul))).1).tail,
        row[1]? = some "" := by
  have hmem : ∀ p ∈ loadUsers ul, ∃ u ∈ ul, p = (u.id, reducedUser u) := by
    intro p hp
    rcases loadUsers_go_mem ul [] p hp with h | h
    · simp at h
    · exact h
  have hfresh : ∀ k u, lookupA (loadUsers ul) k = some u →
      (fun (_ : String) (s : Stats) => s.name = "") k (freshStats u) := by
    intro k u hu
    rcases hmem _ (lookupA_mem hu) with ⟨v, _, heq⟩
    injection heq with h1 h2
    show (freshStats u).name = ""
    rw [h2]
    rfl
  have hb : StatPreserved (fun _ s => s.name = "") := by
    intro k s s' hP _ hname _ _ _
    rw [hname]
    exact hP
  have htab := allTable_runFiles hfresh hb files
  refine ⟨hmem, htab, ?_⟩
  intro row hrow
  rcases mem_exportRows_tail hrow with ⟨cd, hcd, du, hdu, p, hp, rfl⟩
  have hname := htab cd hcd du hdu p hp
  simp only [rowOf]
  rw [hname]
  rfl

/-- C6 witness: the lookup-table entry for `U1` and the data row of a
concrete run both carry the empty name. -/
theorem name_field_never_retained_witness :
    (∃ u ∈ [aliceRaw, bobRaw], (("U1" : String), reducedUser aliceRaw) = (u.id, reducedUser u))
    ∧ (["Alice", "", "false", "false", "2023-11-14", "1", "1", "1", "1", "1",
        "random"] : List String)[1]? = some "" :=
  ⟨(name_field_never_retained [aliceRaw, bobRaw] [("random", [mGood])]).1
      ("U1", reducedUser aliceRaw) (by decide),
    (name_field_never_retained [aliceRaw, bobRaw] [("random", [mGood])]).2.2
      ["Alice", "", "false", "false", "2023-11-14", "1", "1", "1", "1", "1", "random"]
      (by decide)⟩

/-- C10: an occurrence of a reactor identifier that is unknown to the user
lookup table (and hence, by the second conjunct, has no record in any
reachable bucket) leaves the bucket completely unchanged — no record is
created for the reactor and the author's given count and given-to set are
untouched.  The second conjunct: every user key stored anywhere in a table
aggregated from empty holds a record only if it is present in the user
lookup table. -/
theorem unknown_reactor_no_effect :
    (∀ (su : StatsByUser) (a r : String) (um : UserMap),
      lookupA um r = none → lookupA su r = none →
      processReactor su a r um = su)
    ∧ ∀ (um : UserMap) (files : List (String × List Message)),
        allTable (fun k _ => (lookupA um k).isSome) (runFiles files (some um)).1 := by
  constructor
  · intro su a r um h1 h2
    have hg : getOrCreate su r um = none := by
      simp [getOrCreate, h1, h2]
    unfold processReactor
    rw [hg]
  · intro um files
    refine allTable_runFiles ?_ ?_ files
    · intro k u hu
      simp [hu]
    · intro k s s' hP _ _ _ _ _
      exact hP

/-- C10 witness: the unknown reactor `U9` leaves a concrete bucket
unchanged, and the known key of a concrete aggregated table is in the user
table. -/
theorem unknown_reactor_no_effect_witness :
    processReactor [("U1", freshStats (reducedUser aliceRaw))] "U1" "U9" demoUsers
      = [("U1", freshStats (reducedUser aliceRaw))]
    ∧ (lookupA demoUsers "U1").isSome :=
  ⟨unknown_reactor_no_effect.1 [("U1", freshStats (reducedUser aliceRaw))] "U1" "U9"
      demoUsers (by decide) (by decide),
    unknown_reactor_no_effect.2 demoUsers [("random", [mGood])]
      ("random", [("2023-11-14",
        [("U1", { userID := "U1", name := "", displayName := "Alice", posts := 1,
                  givenReactions := 1, givenReactionUser := ["U1"],
                  receivedReactions := 1, receivedReactionUsers := ["U1"],
                  isRestricted := false, deleted := false })])]) (by decide)
      ("2023-11-14",
        [("U1", { userID := "U1", name := "", displayName := "Alice", posts := 1,
                  givenReactions := 1, givenReactionUser := ["U1"],
                  receivedReactions := 1, receivedReactionUsers := ["U1"],
                  isRestricted := false, deleted := false })]) (by decide)
      ("U1", { userID := "U1", name := "", displayName := "Alice", posts := 1,
               givenReactions := 1, givenReactionUser := ["U1"],
               receivedReactions := 1, receivedReactionUsers := ["U1"],
               isRestricted := false, deleted := false }) (by decide)⟩

/-! ## Key uniqueness is preserved by aggregation -/

theorem processMessages_none :
    ∀ (ms : List Message) (ud : StatsByDay), processMessages ud ms none = (ud, [])
  | [], _ => rfl
  | m :: rest, ud => by
    simp [processMessages, processMessages_none rest ud]

theorem keysNodup_getOrCreate {su su' : StatsByUser} {uid : String} {um : UserMap}
    (h : getOrCreate su uid um = some su') (hn : (su.map Prod.fst).Nodup) :
    (su'.map Prod.fst).Nodup := by
  rcases getOrCreate_eq_some h with ⟨s, _, rfl⟩ | ⟨_, u, _, rfl⟩
  · exact hn
  · exact keysNodup_updA _ _ hn

theorem keysNodup_bumpPosts {su : StatsByUser} (uid : String)
    (hn : (su.map Prod.fst).Nodup) : ((bumpPosts su uid).map Prod.fst).Nodup := by
  unfold bumpPosts
  split
  next s _ => exact keysNodup_updA _ _ hn
  next => exact hn

theorem keysNodup_bumpReceived {su : StatsByUser} (r a : String)
    (hn : (su.map Prod.fst).Nodup) : ((bumpReceived su r a).map Prod.fst).Nodup := by
  unfold bumpReceived
  split
  next rs _ => exact keysNodup_updA _ _ hn
  next => exact hn

theorem keysNodup_bumpGiven {su : StatsByUser} (a r : String)
    (hn : (su.map Prod.fst).Nodup) : ((bumpGiven su a r).map Prod.fst).Nodup := by
  unfold bumpGiven
  split
  next s _ => exact keysNodup_updA _ _ hn
  next => exact hn

theorem keysNodup_processReactor {su : StatsByUser} (a r : String) (um : UserMap)
    (hn : (su.map Prod.fst).Nodup) :
    ((processReactor su a r um).map Prod.fst).Nodup := by
  unfold processReactor
  split
  next => exact hn
  next su1 hg =>
    exact keysNodup_bumpGiven a r (keysNodup_bumpReceived r a (keysNodup_getOrCreate hg hn))

theorem keysNodup_foldReactors (a : String) (um : UserMap) :
    ∀ (users : List String) (su : StatsByUser), (su.map Prod.fst).Nodup →
      ((users.foldl (fun acc2 r => processReactor acc2 a r um) su).map Prod.fst).Nodup
  | [], _, hn => hn
  | r :: rest, su, hn => by
    simp only [List.foldl_cons]
    exact keysNodup_foldReactors a um rest _ (keysNodup_processReactor a r um hn)

theorem keysNodup_processReactions (a : String) (um : UserMap) :
    ∀ (reactions : List Reaction) (su : StatsByUser), (su.map Prod.fst).Nodup →
      ((processReactions su a reactions um).map Prod.fst).Nodup
  | [], _, hn => hn
  | reac :: rest, su, hn => by
    show (((reac :: rest).foldl
      (fun acc r0 => r0.users.foldl (fun acc2 r => processReactor acc2 a r um) acc)
      su).map Prod.fst).Nodup
    simp only [List.foldl_cons]
    exact keysNodup_processReactions a um rest _ (keysNodup_foldReactors a um reac.users su hn)

theorem dayNodup_updA_su {ud : StatsByDay} {day : String} {X : StatsByUser}
    (hn : dayNodup ud) (hX : (X.map Prod.fst).Nodup) : dayNodup (updA ud day X) := by
  refine ⟨keysNodup_updA _ _ hn.1, ?_⟩
  intro du hdu
  rcases mem_updA hdu with rfl | hdu'
  · exact hX
  · exact hn.2 du hdu'

theorem keysNodup_dayBucket {ud : StatsByDay} (day : String) (hn : dayNodup ud) :
    (((lookupA ud day).getD []).map Prod.fst).Nodup := by
  cases hl : lookupA ud day with
  | none => simp
  | some su => exact hn.2 (day, su) (lookupA_mem hl)

theorem dayNodup_processMessage {ud : StatsByDay} {um : UserMap} (hn : dayNodup ud)
    (m : Message) (sec : Int) : dayNodup (processMessage ud m um sec) := by
  have h0 := keysNodup_dayBucket (formatDay sec) hn
  unfold processMessage
  split
  next hg => exact dayNodup_updA_su hn h0
  next su1 hg =>
    exact dayNodup_updA_su hn
      (keysNodup_processReactions m.user um m.givenReactions _
        (keysNodup_bumpPosts m.user (keysNodup_getOrCreate hg h0)))

theorem dayNodup_processMessages {um : UserMap} :
    ∀ (ms : List Message) (ud : StatsByDay), dayNodup ud →
      dayNodup (processMessages ud ms (some um)).1
  | [], _, hn => hn
  | m :: rest, ud, hn => by
    by_cases hts : m.timestamp = ""
    · have hstep : processMessages ud (m :: rest) (some um)
          = processMessages ud rest (some um) := by
        simp [processMessages, hts]
      rw [hstep]
      exact dayNodup_processMessages rest ud hn
    · cases hp : parseTsSeconds m.timestamp with
      | none =>
        have hstep : processMessages ud (m :: rest) (some um)
            = (ud, [parseErrLine m.timestamp]) := by
          simp [processMessages, hts, hp]
        rw [hstep]
        exact hn
      | some sec =>
        have hstep : processMessages ud (m :: rest) (some um)
            = processMessages (processMessage ud m um sec) rest (some um) := by
          simp [processMessages, hts, hp]
        rw [hstep]
        exact dayNodup_processMessages rest _ (dayNodup_processMessage hn m sec)

theorem dayNodup_channelBucket {t : StatsByChannel} (c : String) (hn : tableNodup t) :
    dayNodup ((lookupA t c).getD []) := by
  cases hl : lookupA t c with
  | none => exact ⟨by simp, by intro du hdu; simp at hdu⟩
  | some ud =>
    exact ⟨(hn.2 (c, ud) (lookupA_mem hl)).1, (hn.2 (c, ud) (lookupA_mem hl)).2⟩

theorem tableNodup_updA_day {t : StatsByChannel} {c : String} {X : StatsByDay}
    (hn : tableNodup t) (hX : dayNodup X) : tableNodup (updA t c X) := by
  refine ⟨keysNodup_updA _ _ hn.1, ?_⟩
  intro cd hcd
  rcases mem_updA hcd with rfl | hcd'
  · exact ⟨hX.1, hX.2⟩
  · exact hn.2 cd hcd'

theorem tableNodup_updateStats {t : StatsByChannel} (c : String) (ms : List Message)
    (users : Option UserMap) (hn : tableNodup t) :
    tableNodup (updateStats t c ms users).1 := by
  unfold updateStats
  dsimp only
  cases users with
  | none =>
    rw [processMessages_none ms]
    exact tableNodup_updA_day hn (dayNodup_channelBucket c hn)
  | some um =>
    exact tableNodup_updA_day hn
      (dayNodup_processMessages ms _ (dayNodup_channelBucket c hn))

/-! ## Counters never decrease -/

theorem statsLE_refl (s : Stats) : statsLE s s :=
  ⟨le_refl _, le_refl _, le_refl _⟩

theorem statsLE_trans {a b c : Stats} (h1 : statsLE a b) (h2 : statsLE b c) :
    statsLE a c :=
  ⟨le_trans h1.1 h2.1, le_trans h1.2.1 h2.2.1, le_trans h1.2.2 h2.2.2⟩

theorem suLE_refl (su : StatsByUser) : suLE su su :=
  fun _ s h => ⟨s, h, statsLE_refl s⟩

theorem suLE_trans {a b c : StatsByUser} (h1 : suLE a b) (h2 : suLE b c) :
    suLE a c := by
  intro k s hs
  rcases h1 k s hs with ⟨s', hs', hle⟩
  rcases h2 k s' hs' with ⟨s'', hs'', hle'⟩
  exact ⟨s'', hs'', statsLE_trans hle hle'⟩

theorem suLE_updA_of_none {su : StatsByUser} {k : String} (v : Stats)
    (h : lookupA su k = none) : suLE su (updA su k v) := by
  intro k' s hs
  have hne : k' ≠ k := by
    intro e
    rw [e, h] at hs
    cases hs
  refine ⟨s, ?_, statsLE_refl s⟩
  rw [lookupA_updA_ne su k v k' hne]
  exact hs

theorem suLE_updA_bump {su : StatsByUser} {k : String} {s s' : Stats}
    (hs : lookupA su k = some s) (hle : statsLE s s') : suLE su (updA su k s') := by
  intro k' w hw
  by_cases hk : k' = k
  · subst hk
    rw [hs] at hw
    cases hw
    exact ⟨s', lookupA_updA_self su k' s', hle⟩
  · refine ⟨w, ?_, statsLE_refl w⟩
    rw [lookupA_updA_ne su k s' k' hk]
    exact hw

theorem suLE_getOrCreate {su su' : StatsByUser} {uid : String} {um : UserMap}
    (h : getOrCreate su uid um = some su') : suLE su su' := by
  rcases getOrCreate_eq_some h with ⟨s, _, rfl⟩ | ⟨hs, u, _, rfl⟩
  · exact suLE_refl _
  · exact suLE_updA_of_none _ hs

theorem suLE_bumpPosts (su : StatsByUser) (uid : String) :
    suLE su (bumpPosts su uid) := by
  unfold bumpPosts
  split
  next s hs => exact suLE_updA_bump hs ⟨Nat.le_succ _, le_refl _, le_refl _⟩
  next => exact suLE_refl su

theorem suLE_bumpReceived (su : StatsByUser) (r a : String) :
    suLE su (bumpReceived su r a) := by
  unfold bumpReceived
  split
  next rs hrs => exact suLE_updA_bump hrs ⟨le_refl _, le_refl _, Nat.le_succ _⟩
  next => exact suLE_refl su

theorem suLE_bumpGiven (su : StatsByUser) (a r : String) :
    suLE su (bumpGiven su a r) := by
  unfold bumpGiven
  split
  next s hs => exact suLE_updA_bump hs ⟨le_refl _, Nat.le_succ _, le_refl _⟩
  next => exact suLE_refl su

theorem suLE_processReactor (su : StatsByUser) (a r : String) (um : UserMap) :
    suLE su (processReactor su a r um) := by
  unfold processReactor
  split
  next => exact suLE_refl su
  next su1 hg =>
    exact suLE_trans (suLE_getOrCreate hg)
      (suLE_trans (suLE_bumpReceived su1 r a) (suLE_bumpGiven _ a r))

theorem suLE_foldReactors (a : String) (um : UserMap) :
    ∀ (users : List String) (su : StatsByUser),
      suLE su (users.foldl (fun acc2 r => processReactor acc2 a r um) su)
  | [], su => suLE_refl su
  | r :: rest, su => by
    simp only [List.foldl_cons]
    exact suLE_trans (suLE_processReactor su a r um) (suLE_foldReactors a um rest _)

theorem suLE_processReactions (a : String) (um : UserMap) :
    ∀ (reactions : List Reaction) (su : StatsByUser),
      suLE su (processReactions su a reactions um)
  | [], su => suLE_refl su
  | reac :: rest, su => by
    show suLE su ((reac :: rest).foldl
      (fun acc r0 => r0.users.foldl (fun acc2 r => processReactor acc2 a r um) acc) su)
    simp only [List.foldl_cons]
    exact suLE_trans (suLE_foldReactors a um reac.users su)
      (suLE_processReactions a um rest _)

theorem udLE_refl (ud : StatsByDay) : udLE ud ud :=
  fun _ su h => ⟨su, h, suLE_refl su⟩

theorem udLE_trans {a b c : StatsByDay} (h1 : udLE a b) (h2 : udLE b c) :
    udLE a c := by
  intro d su hsu
  rcases h1 d su hsu with ⟨su', hsu', hle⟩
  rcases h2 d su' hsu' with ⟨su'', hsu'', hle'⟩
  exact ⟨su'', hsu'', suLE_trans hle hle'⟩

theorem udLE_updA_su {ud : StatsByDay} {day : String} {X : StatsByUser}
    (hle : suLE ((lookupA ud day).getD []) X) : udLE ud (updA ud day X) := by
  intro d su hsu
  by_cases hd : d = day
  · subst hd
    refine ⟨X, lookupA_updA_self _ _ _, ?_⟩
    rw [show (lookupA ud d).getD [] = su from by rw [hsu]; rfl] at hle
    exact hle
  · refine ⟨su, ?_, suLE_refl su⟩
    rw [lookupA_updA_ne ud day X d hd]
    exact hsu

theorem udLE_processMessage (ud : StatsByDay) (m : Message) (um : UserMap)
    (sec : Int) : udLE ud (processMessage ud m um sec) := by
  unfold processMessage
  split
  next => exact udLE_updA_su (suLE_refl _)
  next su1 hg =>
    exact udLE_updA_su (suLE_trans (suLE_getOrCreate hg)
      (suLE_trans (suLE_bumpPosts su1 m.user)
        (suLE_processReactions m.user um m.givenReactions _)))

theorem udLE_processMessages {um : UserMap} :
    ∀ (ms : List Message) (ud : StatsByDay),
      udLE ud (processMessages ud ms (some um)).1
  | [], ud => udLE_refl ud
  | m :: rest, ud => by
    by_cases hts : m.timestamp = ""
    · have hstep : processMessages ud (m :: rest) (some um)
          = processMessages ud rest (some um) := by
        simp [processMessages, hts]
      rw [hstep]
      exact udLE_processMessages rest ud
    · cases hp : parseTsSeconds m.timestamp with
      | none =>
        have hstep : processMessages ud (m :: rest) (some um)
            = (ud, [parseErrLine m.timestamp]) := by
          simp [processMessages, hts, hp]
        rw [hstep]
        exact udLE_refl ud
      | some sec =>
        have hstep : processMessages ud (m :: rest) (some um)
            = processMessages (processMessage ud m um sec) rest (some um) := by
          simp [processMessages, hts, hp]
        rw [hstep]
        exact udLE_trans (udLE_processMessage ud m um sec)
          (udLE_processMessages rest _)

theorem tableLE_updA_ud {t : StatsByChannel} {c : String} {X : StatsByDay}
    (hle : udLE ((lookupA t c).getD []) X) : tableLE t (updA t c X) := by
  intro c0 ud hud
  by_cases hc : c0 = c
  · subst hc
    refine ⟨X, lookupA_updA_self _ _ _, ?_⟩
    rw [show (lookupA t c0).getD [] = ud from by rw [hud]; rfl] at hle
    exact hle
  · refine ⟨ud, ?_, udLE_refl ud⟩
    rw [lookupA_updA_ne t c X c0 hc]
    exact hud

theorem tableLE_updateStats (t : StatsByChannel) (c : String) (ms : List Message)
    (users : Option UserMap) : tableLE t (updateStats t c ms users).1 := by
  unfold updateStats
  dsimp only
  cases users with
  | none =>
    rw [processMessages_none ms]
    exact tableLE_updA_ud (udLE_refl _)
  | some um => exact tableLE_updA_ud (udLE_processMessages ms _)

/-! ## Unreferenced users gain no record -/

theorem lookupA_bumpPosts_ne {su : StatsByUser} {uid k : String} (h : k ≠ uid) :
    lookupA (bumpPosts su uid) k = lookupA su k := by
  unfold bumpPosts
  split
  next s _ => exact lookupA_updA_ne su uid _ k h
  next => rfl

theorem lookupA_bumpReceived_ne {su : StatsByUser} {r a k : String} (h : k ≠ r) :
    lookupA (bumpReceived su r a) k = lookupA su k := by
  unfold bumpReceived
  split
  next rs _ => exact lookupA_updA_ne su r _ k h
  next => rfl

theorem lookupA_bumpGiven_ne {su : StatsByUser} {a r k : String} (h : k ≠ a) :
    lookupA (bumpGiven su a r) k = lookupA su k := by
  unfold bumpGiven
  split
  next s _ => exact lookupA_updA_ne su a _ k h
  next => rfl

theorem lookupA_processReactor_ne {su : StatsByUser} {a r k : String} {um : UserMap}
    (ha : k ≠ a) (hr : k ≠ r) :
    lookupA (processReactor su a r um) k = lookupA su k := by
  unfold processReactor
  split
  next => rfl
  next su1 hg =>
    rw [lookupA_bumpGiven_ne ha, lookupA_bumpReceived_ne hr,
        lookupA_getOrCreate_ne hg k hr]

theorem lookupA_foldReactors_ne {k : String} {um : UserMap} (a : String) (ha : k ≠ a) :
    ∀ (users : List String) (su : StatsByUser), (∀ r ∈ users, k ≠ r) →
      lookupA (users.foldl (fun acc2 r => processReactor acc2 a r um) su) k
        = lookupA su k
  | [], _, _ => rfl
  | r :: rest, su, h => by
    simp only [List.foldl_cons]
    rw [lookupA_foldReactors_ne a ha rest _
        (fun r' hr' => h r' (List.mem_cons_of_mem _ hr')),
      lookupA_processReactor_ne ha (h r (List.mem_cons_self _ _))]

theorem lookupA_processReactions_ne {k : String} {um : UserMap} (a : String)
    (ha : k ≠ a) :
    ∀ (reactions : List Reaction) (su : StatsByUser),
      (∀ reac ∈ reactions, ∀ r ∈ reac.users, k ≠ r) →
      lookupA (processReactions su a reactions um) k = lookupA su k
  | [], _, _ => rfl
  | reac :: rest, su, h => by
    show lookupA ((reac :: rest).foldl
      (fun acc r0 => r0.users.foldl (fun acc2 r => processReactor acc2 a r um) acc) su) k
      = lookupA su k
    simp only [List.foldl_cons]
    exact (lookupA_processReactions_ne a ha rest _
        (fun reac' hreac' => h reac' (List.mem_cons_of_mem _ hreac'))).trans
      (lookupA_foldReactors_ne a ha reac.users su
        (h reac (List.mem_cons_self _ _)))

theorem recAtD_processMessage_ne {ud : StatsByDay} {m : Message} {um : UserMap}
    {sec : Int} {uid : String} (hu : uid ≠ m.user)
    (hr : ∀ reac ∈ m.givenReactions, ∀ r ∈ reac.users, uid ≠ r) (d : String) :
    recAtD (processMessage ud m um sec) d uid = recAtD ud d uid := by
  unfold processMessage recAtD
  split
  next hg =>
    by_cases hd : d = formatDay sec
    · rw [hd, lookupA_updA_self]
      simp only [Option.getD_some]
    · rw [lookupA_updA_ne _ _ _ d hd]
  next su1 hg =>
    by_cases hd : d = formatDay sec
    · rw [hd, lookupA_updA_self]
      simp only [Option.getD_some]
      rw [lookupA_processReactions_ne m.user hu m.givenReactions _ hr,
          lookupA_bumpPosts_ne hu, lookupA_getOrCreate_ne hg uid hu]
    · rw [lookupA_updA_ne _ _ _ d hd]

theorem recAtD_processMessages_ne {um : UserMap} {uid : String} :
    ∀ (ms : List Message) (ud : StatsByDay), uid ∉ mentioned ms →
      ∀ d, recAtD (processMessages ud ms (some um)).1 d uid = recAtD ud d uid
  | [], _, _, _ => rfl
  | m :: rest, ud, hnot, d => by
    have hsplit : mentioned (m :: rest)
        = (m.user :: m.givenReactions.flatMap (fun r => r.users)) ++ mentioned rest := by
      simp [mentioned]
    rw [hsplit, List.mem_append, List.mem_cons] at hnot
    push_neg at hnot
    have h1 : uid ≠ m.user := hnot.1.1
    have h2 : ∀ reac ∈ m.givenReactions, ∀ r ∈ reac.users, uid ≠ r := by
      intro reac hreac r hrr e
      exact hnot.1.2 (by rw [e]; exact List.mem_flatMap.mpr ⟨reac, hreac, hrr⟩)
    have h3 : uid ∉ mentioned rest := hnot.2
    by_cases hts : m.timestamp = ""
    · have hstep : processMessages ud (m :: rest) (some um)
          = processMessages ud rest (some um) := by
        simp [processMessages, hts]
      rw [hstep]
      exact recAtD_processMessages_ne rest ud h3 d
    · cases hp : parseTsSeconds m.timestamp with
      | none =>
        have hstep : processMessages ud (m :: rest) (some um)
            = (ud, [parseErrLine m.timestamp]) := by
          simp [processMessages, hts, hp]
        rw [hstep]
      | some sec =>
        have hstep : processMessages ud (m :: rest) (some um)
            = processMessages (processMessage ud m um sec) rest (some um) := by
          simp [processMessages, hts, hp]
        rw [hstep, recAtD_processMessages_ne rest _ h3 d,
            recAtD_processMessage_ne h1 h2 d]

theorem recAtT_updateStats_ne {t : StatsByChannel} {c : String} {ms : List Message}
    {users : Option UserMap} {uid : String} (hnot : uid ∉ mentioned ms)
    (c0 d : String) :
    recAtT (updateStats t c ms users).1 c0 d uid = recAtT t c0 d uid := by
  unfold updateStats recAtT
  dsimp only
  cases users with
  | none =>
    rw [processMessages_none ms]
    by_cases hc : c0 = c
    · rw [hc, lookupA_updA_self]
      simp only [Option.getD_some]
    · rw [lookupA_updA_ne _ _ _ c0 hc]
  | some um =>
    by_cases hc : c0 = c
    · rw [hc, lookupA_updA_self]
      simp only [Option.getD_some]
      exact recAtD_processMessages_ne ms _ hnot d
    · rw [lookupA_updA_ne _ _ _ c0 hc]

/-- C9: every `updateStats` call preserves key uniqueness at all three
levels of the table (at most one `Stats` record per (channel, day, user)
triple), never decreases and never resets the post, given-reaction and
received-reaction counts of any existing record, and creates no record for a
user that the call's messages do not reference as author or reactor (records
appear only lazily, on first reference). -/
theorem stats_unique_lazy_monotone (t : StatsByChannel) (c : String)
    (ms : List Message) (users : Option UserMap) :
    (tableNodup t → tableNodup (updateStats t c ms users).1)
    ∧ tableLE t (updateStats t c ms users).1
    ∧ ∀ uid, uid ∉ mentioned ms →
        ∀ c0 d, recAtT (updateStats t c ms users).1 c0 d uid = recAtT t c0 d uid :=
  ⟨fun hn => tableNodup_updateStats c ms users hn,
    tableLE_updateStats t c ms users,
    fun _ hnot c0 d => recAtT_updateStats_ne hnot c0 d⟩

/-- C9 witness: one concrete `updateStats` call on the empty table. -/
theorem stats_unique_lazy_monotone_witness :
    tableNodup (updateStats [] "general" [mGood] (some demoUsers)).1
    ∧ tableLE [] (updateStats [] "general" [mGood] (some demoUsers)).1
    ∧ recAtT (updateStats [] "general" [mGood] (some demoUsers)).1
        "general" "2023-11-14" "U9"
      = recAtT [] "general" "2023-11-14" "U9" :=
  ⟨(stats_unique_lazy_monotone [] "general" [mGood] (some demoUsers)).1
      ⟨by simp, fun cd hcd => absurd hcd (by simp)⟩,
    (stats_unique_lazy_monotone [] "general" [mGood] (some demoUsers)).2.1,
    (stats_unique_lazy_monotone [] "general" [mGood] (some demoUsers)).2.2 "U9"
      (by decide) "general" "2023-11-14"⟩
